import Mathlib

/-!
# Hash search programs `ex04.cpp`, `ex05.cpp`, `ex06.cpp`

Shallow embedding of the three programs under `src/implementation/cpp`:

* `ex04.cpp`: `simple_hash`, the fixed-width `index_to_string`, `find_collision_hash`;
* `ex05.cpp`: the same `simple_hash` and `index_to_string` (textually identical), and
  `find_second_preimage`;
* `ex06.cpp`: the `sha256` wrapper, the variable-length `index_to_string`
  and `find_str_with_hash_prefix`.

Modelling conventions.

* A `std::string` / `std::string_view` is a `List Char` (`Str`); a C++ `char` is a byte, and
  the integer value of a character is its signed-byte value (`char_to_int`).
* `uint64_t` and `size_t` values are natural numbers; the operations used on them
  (`%`, `/`, `++` below the loop bound) never overflow, bounds are stated where they matter.
* `int` arithmetic wraps modulo `2^32` (two's complement).
* `tbb::parallel_for` over `blocked_range<uint64_t>(0, N, 4096)` is modelled by its sequential
  in-order execution: the loop body runs for `i = 0, 1, ..., N-1`; the body first tests the
  cancellation flag of the `task_group_context` and does nothing once it is set.
* `tbb::concurrent_unordered_map<std::string, std::string>` is a finite map, modelled as a
  function `Str → Option Str` with point update.
-/

/-- A C++ string: a sequence of characters. -/
abbrev Str := List Char

/-! ## Definitions common to the three programs -/

/-- `PRINTABLE_ASCII` (ex04.cpp:38, ex05.cpp:39, ex06.cpp:41): `0-9A-Za-z`. -/
def PRINTABLE_ASCII : Str :=
  "0123456789ABCDEFGHIJKLMNOPQRSTUVWXYZabcdefghijklmnopqrstuvwxyz".toList

/-- `PRINTABLE_ASCII_SIZE = sizeof(PRINTABLE_ASCII) - 1`, the array without its terminator. -/
def PRINTABLE_ASCII_SIZE : Nat := PRINTABLE_ASCII.length

/-- `MAX_STR_LEN` (ex04.cpp:43, ex05.cpp:44). -/
def MAX_STR_LEN : Nat := 8

/-- The array access `PRINTABLE_ASCII[k]`; index 62 is the terminating NUL of the C array. -/
def PRINTABLE_ASCII_at (k : Nat) : Char := PRINTABLE_ASCII.getD k (Char.ofNat 0)

/-- A generic counted loop `for (i = begin; i != begin + count; ++i) s = body(i, s)`. -/
def for_loop {σ : Type} (body : Nat → σ → σ) : Nat → Nat → σ → σ
  | _, 0, s => s
  | i, k + 1, s => for_loop body (i + 1) k (body i s)

/-! ## ex04.cpp / ex05.cpp : fixed-width indexer -/

/-- The loop of the fixed-width `index_to_string` (ex04.cpp:50-53): `count` iterations left,
current position `i`, current value of `n`, current contents of `str`.
A write `str[i]` beyond the end of the buffer is undefined in C++; `List.set` ignores it. -/
def index_to_string_loop : Nat → Nat → Nat → Str → Str
  | 0, _, _, str => str
  | count + 1, i, n, str =>
      index_to_string_loop count (i + 1) (n / PRINTABLE_ASCII_SIZE)
        (str.set i (PRINTABLE_ASCII_at (n % PRINTABLE_ASCII_SIZE)))

/-- The fixed-width `index_to_string(n, max_str_len)` of ex04.cpp:46 and ex05.cpp:47.
The buffer is created with `MAX_STR_LEN` copies of `PRINTABLE_ASCII[0]`, then the first
`max_str_len` positions are overwritten. The C++ default argument is `MAX_STR_LEN`. -/
def index_to_string (n : Nat) (max_str_len : Nat) : Str :=
  index_to_string_loop max_str_len 0 n (List.replicate MAX_STR_LEN (PRINTABLE_ASCII_at 0))

/-! ## ex06.cpp : variable-length indexer -/

namespace ex06

/-- The `while (n > 0)` loop of ex06.cpp:54-57, with a fuel counter bounding the number of
iterations. -/
def index_to_string_loop : Nat → Nat → Str → Str
  | 0, _, str => str
  | fuel + 1, n, str =>
      if n > 0 then
        index_to_string_loop fuel (n / PRINTABLE_ASCII_SIZE)
          (str ++ [PRINTABLE_ASCII_at (n % PRINTABLE_ASCII_SIZE)])
      else str

/-- The variable-length `index_to_string(n)` of ex06.cpp:49. The loop divides `n` by 62 at
every iteration, so 64 iterations are more than a 64-bit `n` can use. -/
def index_to_string (n : Nat) : Str :=
  if n = 0 then [PRINTABLE_ASCII_at 0]
  else index_to_string_loop 64 n []

end ex06

/-! ## ex04.cpp / ex05.cpp : the rolling hash -/

/-- The value of a `char` promoted to `int`: the signed value of the byte. -/
def char_to_int (c : Char) : Int :=
  if c.toNat % 256 < 128 then ((c.toNat % 256 : Nat) : Int) else ((c.toNat % 256 : Nat) : Int) - 256

/-- One iteration of the loop of `simple_hash` (ex04.cpp:30, ex05.cpp:31):
`hash_val = ((hash_val << 5) - hash_val + c) & 0xffffffff`. The 32-bit `int` is held as its
two's complement bit pattern, a number below `2^32`. -/
def simple_hash_step (hash_val : Int) (c : Char) : Int :=
  (hash_val * 2 ^ 5 - hash_val + char_to_int c) % 2 ^ 32

/-- Output of `ss << std::hex << std::setfill('0') << std::setw(w) << v`: the lowercase
hexadecimal digits of `v`, padded on the left with `'0'` up to width `w`. -/
def hex_setw (w : Nat) (v : Nat) : Str :=
  let digits := Nat.toDigits 16 v
  List.replicate (w - digits.length) '0' ++ digits

/-- The function `simple_hash` of ex04.cpp:27 and ex05.cpp:28. -/
def simple_hash (str : Str) : Str :=
  hex_setw 8 (str.foldl simple_hash_step 0).toNat

/-! ## ex05.cpp : second preimage search -/

/-- The variables shared by the workers of `find_second_preimage` (ex05.cpp:64-67) and of
`find_str_with_hash_prefix` (ex06.cpp:64-67): the cancellation flag of the
`task_group_context` and the string `result`. -/
structure SearchState where
  cancelled : Bool
  result : Str
deriving DecidableEq

/-- The body of the loop of ex05.cpp:70-85 for index `i`. -/
def find_second_preimage_body (target_hash target_str : Str) (i : Nat)
    (s : SearchState) : SearchState :=
  if s.cancelled then s
  else
    let str := index_to_string i MAX_STR_LEN
    let hash := simple_hash str
    if hash = target_hash ∧ str ≠ target_str then
      { cancelled := true, result := str }
    else s

/-- The state after the sequential in-order scan of the indices `[0, maximum_tries)`. -/
def find_second_preimage_run (maximum_tries : Nat) (target_str : Str) : SearchState :=
  for_loop (find_second_preimage_body (simple_hash target_str) target_str) 0 maximum_tries
    { cancelled := false, result := [] }

/-- The function `find_second_preimage(maximum_tries, target_str)` of ex05.cpp:61. -/
def find_second_preimage (maximum_tries : Nat) (target_str : Str) : Str :=
  (find_second_preimage_run maximum_tries target_str).result

/-! ## ex04.cpp : collision search -/

/-- The variables shared by the workers of `find_collision_hash`: the cancellation flag,
`result` and `hash_to_str_map`. -/
structure CollisionState where
  cancelled : Bool
  result : Str × Str
  hash_to_str_map : Str → Option Str

/-- The assignment `hash_to_str_map[hash] = str`. -/
def map_set (m : Str → Option Str) (hash str : Str) : Str → Option Str :=
  fun k => if k = hash then some str else m k

/-- The body of the loop of ex04.cpp:69-86 for index `i`. -/
def find_collision_hash_body (i : Nat) (s : CollisionState) : CollisionState :=
  if s.cancelled then s
  else
    let str := index_to_string i MAX_STR_LEN
    let hash := simple_hash str
    match s.hash_to_str_map hash with
    | some found => { cancelled := true, result := (str, found),
                      hash_to_str_map := s.hash_to_str_map }
    | none => { cancelled := false, result := s.result,
                hash_to_str_map := map_set s.hash_to_str_map hash str }

/-- The state after the sequential in-order scan of the indices `[0, maximum_combinations)`. -/
def find_collision_hash_run (maximum_combinations : Nat) : CollisionState :=
  for_loop find_collision_hash_body 0 maximum_combinations
    { cancelled := false, result := ([], []), hash_to_str_map := fun _ => none }

/-- The function `find_collision_hash(maximum_combinations)` of ex04.cpp:59. -/
def find_collision_hash (maximum_combinations : Nat) : Str × Str :=
  (find_collision_hash_run maximum_combinations).result

/-! ## ex06.cpp : hash prefix search -/

namespace ex06

/-- The wrapper `sha256` of ex06.cpp:25 around OpenSSL's `SHA256`, which is not part of the
repository and is taken as a parameter returning the digest bytes: every byte is written
with `std::hex`, `std::setfill('0')` and `std::setw(2)`. -/
def sha256 (SHA256 : Str → List Nat) (data : Str) : Str :=
  ((SHA256 data).map (fun b => hex_setw 2 b)).flatten

/-- The call `s.substr(0, len)`: the first `len` characters, or all of `s` if it is shorter. -/
def substr0 (s : Str) (len : Nat) : Str := s.take len

/-- The body of the loop of ex06.cpp:70-87 for index `i`; `H` stands for `sha256`. -/
def find_str_with_hash_prefix_body (H : Str → Str) ( hash_prefix : Str) (i : Nat)
    (s : SearchState) : SearchState :=
  if s.cancelled then s
  else
    let str := "bitcoin".toList ++ index_to_string i
    let hash := H str
    let curr_hash_prefix := substr0 hash hash_prefix.length
    if curr_hash_prefix = hash_prefix then
      { cancelled := true, result := str }
    else s

/-- The state after the sequential in-order scan of the indices `[0, maximum_tries)`. -/
def find_str_with_hash_prefix_run (H : Str → Str) (maximum_tries : Nat) ( hash_prefix : Str) :
    SearchState :=
  for_loop (find_str_with_hash_prefix_body H hash_prefix) 0 maximum_tries
    { cancelled := false, result := [] }

/-- The function `find_str_with_hash_prefix(maximum_tries, hash_prefix)` of ex06.cpp:63, with
the hash function `H` in place of `sha256`. -/
def find_str_with_hash_prefix (H : Str → Str) (maximum_tries : Nat) ( hash_prefix : Str) : Str :=
  (find_str_with_hash_prefix_run H maximum_tries hash_prefix).result

end ex06

/-! ## Definitions used to state the properties

`pos` and `decode` follow the specification's description of the inverse of the fixed-width
indexer, `hex_fixed` and `poly_hash` its description of the digest; the others name the tests
made by the search loops, the states their scans reach and the steps of their workers. -/

/-- Position of a character in the alphabet `0-9A-Za-z` (62 for a character outside it). -/
def pos (c : Char) : Nat := PRINTABLE_ASCII.indexOf c

/-- The decoder of the specification: `decode(s)` is the sum over `i < 8` of
`pos(s[i]) * 62^i`. -/
def decode (s : Str) : Nat :=
  ((List.range 8).map (fun i => pos (s.getD i (Char.ofNat 0)) * 62 ^ i)).sum

/-- Value of a string of base-62 digits, least significant digit first. -/
def digits_value : Str → Nat
  | [] => 0
  | c :: s => pos c + 62 * digits_value s

/-- The candidate of index `i` in ex04.cpp and ex05.cpp (`index_to_string(i)` with the default
length). -/
def candidate (i : Nat) : Str := index_to_string i MAX_STR_LEN

/-- The digest of the candidate of index `i`. -/
def digest (i : Nat) : Str := simple_hash (candidate i)

/-- The test of ex05.cpp:77 at index `i`. -/
def preimage_hit (target_str : Str) (i : Nat) : Prop :=
  simple_hash (index_to_string i MAX_STR_LEN) = simple_hash target_str ∧
    index_to_string i MAX_STR_LEN ≠ target_str

instance (target_str : Str) : DecidablePred (preimage_hit target_str) :=
  fun _ => inferInstanceAs (Decidable (_ ∧ _))

/-- The test of ex06.cpp:78-79 at index `i`. -/
def prefix_hit (H : Str → Str) (wanted : Str) (i : Nat) : Prop :=
  ex06.substr0 (H ("bitcoin".toList ++ ex06.index_to_string i)) wanted.length = wanted

instance (H : Str → Str) (wanted : Str) : DecidablePred (prefix_hit H wanted) :=
  fun _ => inferInstanceAs (Decidable (_ = _))

/-- The state reached by a scan of `[0, k)` whose body stores `f i` and cancels at the first
index `i` with `p i`: either nothing was found, or the scan stopped at the first hit. -/
def FirstHit (p : Nat → Prop) (f : Nat → Str) (k : Nat) (s : SearchState) : Prop :=
  (s.cancelled = false ∧ s.result = [] ∧ ∀ i, i < k → ¬ p i) ∨
  (s.cancelled = true ∧ ∃ i, i < k ∧ p i ∧ s.result = f i ∧ ∀ j, j < i → ¬ p j)

/-- No index below `k` has the digest of an earlier index. -/
def NoCollisionBelow (k : Nat) : Prop := ∀ i, i < k → ∀ j, j < i → digest j ≠ digest i

/-- The state reached by the scan of `[0, k)` in `find_collision_hash`: either no index had
the digest of an earlier one and the map holds the digests seen, or the scan stopped at the
first index `i` whose digest was already in the map, stored there by an earlier index `j`. -/
def CollisionInv (k : Nat) (s : CollisionState) : Prop :=
  (s.cancelled = false ∧ s.result = ([], []) ∧ NoCollisionBelow k ∧
    (∀ h v, s.hash_to_str_map h = some v → ∃ j, j < k ∧ v = candidate j ∧ digest j = h) ∧
    (∀ j, j < k → s.hash_to_str_map (digest j) ≠ none)) ∨
  (s.cancelled = true ∧ ∃ i j, i < k ∧ j < i ∧ s.result = (candidate i, candidate j) ∧
    digest j = digest i ∧ NoCollisionBelow i)

/-- One step of a worker of `find_collision_hash`: the loop body run for some index. -/
def collision_step (s s' : CollisionState) : Prop := ∃ i, s' = find_collision_hash_body i s

/-- One step of a worker of `find_second_preimage`: the loop body run for some index. -/
def preimage_step (target_hash target_str : Str) (s s' : SearchState) : Prop :=
  ∃ i, s' = find_second_preimage_body target_hash target_str i s

/-- One step of a worker of `find_str_with_hash_prefix`: the loop body run for some index. -/
def prefix_step (H : Str → Str) (wanted : Str) (s s' : SearchState) : Prop :=
  ∃ i, s' = ex06.find_str_with_hash_prefix_body H wanted i s

/-- The base-62 digit character of `n` at position `i` (position 0 is least significant). -/
def digit_char (n i : Nat) : Char := PRINTABLE_ASCII_at (n / 62 ^ i % 62)

/-- The lowercase hexadecimal digit characters `0-9a-f`. -/
def HEX_DIGITS : Str := "0123456789abcdef".toList

/-- The lowercase hexadecimal digit of value `d`. -/
def hex_digit (d : Nat) : Char := HEX_DIGITS.getD d '0'

/-- The `w`-digit lowercase hexadecimal rendering of `v`, most significant digit first,
zero-padded on the left. -/
def hex_fixed : Nat → Nat → Str
  | 0, _ => []
  | w + 1, v => hex_fixed w (v / 16) ++ [hex_digit (v % 16)]

/-- The base-31 polynomial of the claim: the sum over `i < m` of `s[i] * 31^(m-1-i)`, where
`m` is the length of `s`. -/
def poly_hash (s : Str) : Nat :=
  ((List.range s.length).map
    (fun i => (s.getD i (Char.ofNat 0)).toNat * 31 ^ (s.length - 1 - i))).sum

/-! ## The counted loop -/

theorem for_loop_succ {σ : Type} (body : Nat → σ → σ) (k : Nat) :
    ∀ (i : Nat) (s : σ), for_loop body i (k + 1) s = body (i + k) (for_loop body i k s) := by
  induction k with
  | zero => intro i s; rfl
  | succ k ih =>
    intro i s
    have h := ih (i + 1) (body i s)
    have e : i + 1 + k = i + (k + 1) := by omega
    rw [e] at h
    exact h

/-! ## Searches that stop at the first index satisfying a test -/

theorem firstHit_for_loop (p : Nat → Prop) [DecidablePred p] (f : Nat → Str)
    (body : Nat → SearchState → SearchState)
    (hbody : ∀ i s, body i s =
      if s.cancelled then s else if p i then { cancelled := true, result := f i } else s)
    (k : Nat) :
    FirstHit p f k (for_loop body 0 k { cancelled := false, result := [] }) := by
  induction k with
  | zero => exact Or.inl ⟨rfl, rfl, fun i hi => absurd hi (Nat.not_lt_zero i)⟩
  | succ k ih =>
    rw [for_loop_succ, hbody, Nat.zero_add]
    rcases ih with ⟨hc, hr, hno⟩ | ⟨hc, i, hi, hp, hr, hmin⟩
    · rw [if_neg (by simp [hc])]
      by_cases hk : p k
      · rw [if_pos hk]
        exact Or.inr ⟨rfl, k, Nat.lt_succ_self k, hk, rfl, fun j hj => hno j hj⟩
      · rw [if_neg hk]
        refine Or.inl ⟨hc, hr, fun i hi => ?_⟩
        rcases Nat.lt_succ_iff_lt_or_eq.mp hi with h | h
        · exact hno i h
        · rw [h]; exact hk
    · rw [if_pos hc]
      exact Or.inr ⟨hc, i, Nat.lt_succ_of_lt hi, hp, hr, hmin⟩

theorem find_second_preimage_firstHit (maximum_tries : Nat) (target_str : Str) :
    FirstHit (preimage_hit target_str) (fun i => index_to_string i MAX_STR_LEN) maximum_tries
      (find_second_preimage_run maximum_tries target_str) := by
  unfold find_second_preimage_run
  apply firstHit_for_loop
  intro i s
  rfl

theorem find_str_with_hash_prefix_firstHit (H : Str → Str) (maximum_tries : Nat)
    (wanted : Str) :
    FirstHit (prefix_hit H wanted) (fun i => "bitcoin".toList ++ ex06.index_to_string i)
      maximum_tries (ex06.find_str_with_hash_prefix_run H maximum_tries wanted) := by
  unfold ex06.find_str_with_hash_prefix_run
  apply firstHit_for_loop
  intro i s
  rfl

/-- The `substr`-and-compare test of ex06.cpp:78-79 is the "starts with" test. -/
theorem substr0_eq_iff_starts_with (hash wanted : Str) :
    ex06.substr0 hash wanted.length = wanted ↔ wanted <+: hash := by
  unfold ex06.substr0
  rw [List.prefix_iff_eq_take]
  exact eq_comm

/-! ## The collision search -/

theorem find_collision_hash_body_cancelled (i : Nat) (s : CollisionState)
    (hc : s.cancelled = true) : find_collision_hash_body i s = s := by
  simp [find_collision_hash_body, hc]

theorem find_collision_hash_body_some (i : Nat) (s : CollisionState) (found : Str)
    (hc : s.cancelled = false) (hm : s.hash_to_str_map (digest i) = some found) :
    find_collision_hash_body i s =
      { cancelled := true, result := (candidate i, found),
        hash_to_str_map := s.hash_to_str_map } := by
  unfold digest candidate at *
  simp only [find_collision_hash_body, hc, hm, Bool.false_eq_true, if_false]

theorem find_collision_hash_body_none (i : Nat) (s : CollisionState)
    (hc : s.cancelled = false) (hm : s.hash_to_str_map (digest i) = none) :
    find_collision_hash_body i s =
      { cancelled := false, result := s.result,
        hash_to_str_map := map_set s.hash_to_str_map (digest i) (candidate i) } := by
  unfold digest candidate at *
  simp only [find_collision_hash_body, hc, hm, Bool.false_eq_true, if_false]

theorem find_collision_hash_run_inv (k : Nat) : CollisionInv k (find_collision_hash_run k) := by
  unfold find_collision_hash_run
  induction k with
  | zero =>
    refine Or.inl ⟨rfl, rfl, ?_, ?_, ?_⟩
    · intro i hi; exact absurd hi (Nat.not_lt_zero i)
    · intro h v hv; exact Option.noConfusion hv
    · intro j hj; exact absurd hj (Nat.not_lt_zero j)
  | succ k ih =>
    rw [for_loop_succ, Nat.zero_add]
    generalize for_loop find_collision_hash_body 0 k _ = s at ih ⊢
    rcases ih with ⟨hc, hr, hno, hsome, hnone⟩ | ⟨hc, i, j, hi, hj, hr, hd, hmin⟩
    · cases hm : s.hash_to_str_map (digest k) with
      | some found =>
        rw [find_collision_hash_body_some k s found hc hm]
        obtain ⟨j, hj, hv, hd⟩ := hsome _ _ hm
        exact Or.inr ⟨rfl, k, j, Nat.lt_succ_self k, hj, by rw [hv], hd, hno⟩
      | none =>
        rw [find_collision_hash_body_none k s hc hm]
        refine Or.inl ⟨rfl, hr, ?_, ?_, ?_⟩
        · intro i hi j hj
          rcases Nat.lt_succ_iff_lt_or_eq.mp hi with h | h
          · exact hno i h j hj
          · subst h
            intro e
            rw [← e] at hm
            exact hnone j hj hm
        · intro h v hv
          simp only [map_set] at hv
          by_cases e : h = digest k
          · rw [if_pos e] at hv
            exact ⟨k, Nat.lt_succ_self k, (Option.some.inj hv).symm, e.symm⟩
          · rw [if_neg e] at hv
            obtain ⟨j, hj, hv, hd⟩ := hsome h v hv
            exact ⟨j, Nat.lt_succ_of_lt hj, hv, hd⟩
        · intro j hj
          simp only [map_set]
          by_cases e : digest j = digest k
          · rw [if_pos e]; simp
          · rw [if_neg e]
            rcases Nat.lt_succ_iff_lt_or_eq.mp hj with h | h
            · exact hnone j h
            · subst h; exact absurd rfl e
    · rw [find_collision_hash_body_cancelled k s hc]
      exact Or.inr ⟨hc, i, j, Nat.lt_succ_of_lt hi, hj, hr, hd, hmin⟩

/-! ## The fixed-width indexer -/

theorem PRINTABLE_ASCII_SIZE_eq : PRINTABLE_ASCII_SIZE = 62 := by decide

theorem pos_PRINTABLE_ASCII_at : ∀ d, d < 62 → pos (PRINTABLE_ASCII_at d) = d := by decide

theorem mem_PRINTABLE_ASCII (c : Char) (h : c ∈ PRINTABLE_ASCII) :
    pos c < 62 ∧ PRINTABLE_ASCII_at (pos c) = c := by
  have hlt : pos c < PRINTABLE_ASCII.length := List.indexOf_lt_length.mpr h
  refine ⟨hlt, ?_⟩
  unfold PRINTABLE_ASCII_at
  rw [List.getD_eq_getElem _ _ hlt]
  exact List.indexOf_get hlt

theorem PRINTABLE_ASCII_at_mem (d : Nat) (h : d < 62) : PRINTABLE_ASCII_at d ∈ PRINTABLE_ASCII := by
  unfold PRINTABLE_ASCII_at
  have hlt : d < PRINTABLE_ASCII.length := h
  rw [List.getD_eq_getElem _ _ hlt]
  exact List.getElem_mem hlt

/-- The eight characters of `index_to_string(n)` called with the default length. -/
theorem index_to_string_default (n : Nat) :
    index_to_string n MAX_STR_LEN =
      [PRINTABLE_ASCII_at (n % 62), PRINTABLE_ASCII_at (n / 62 % 62),
       PRINTABLE_ASCII_at (n / 62 / 62 % 62), PRINTABLE_ASCII_at (n / 62 / 62 / 62 % 62),
       PRINTABLE_ASCII_at (n / 62 / 62 / 62 / 62 % 62),
       PRINTABLE_ASCII_at (n / 62 / 62 / 62 / 62 / 62 % 62),
       PRINTABLE_ASCII_at (n / 62 / 62 / 62 / 62 / 62 / 62 % 62),
       PRINTABLE_ASCII_at (n / 62 / 62 / 62 / 62 / 62 / 62 / 62 % 62)] := rfl

theorem decode_eight (c0 c1 c2 c3 c4 c5 c6 c7 : Char) :
    decode [c0, c1, c2, c3, c4, c5, c6, c7] =
      pos c0 + pos c1 * 62 + pos c2 * 62 ^ 2 + pos c3 * 62 ^ 3 + pos c4 * 62 ^ 4 +
        pos c5 * 62 ^ 5 + pos c6 * 62 ^ 6 + pos c7 * 62 ^ 7 := by
  simp [decode, List.range_succ]
  ring

theorem length_eq_eight {α : Type} (s : List α) (h : s.length = 8) :
    ∃ c0 c1 c2 c3 c4 c5 c6 c7, s = [c0, c1, c2, c3, c4, c5, c6, c7] := by
  rcases s with _ | ⟨c0, _ | ⟨c1, _ | ⟨c2, _ | ⟨c3, _ | ⟨c4, _ | ⟨c5, _ | ⟨c6, _ | ⟨c7, _ | ⟨c8, t⟩⟩⟩⟩⟩⟩⟩⟩⟩ <;>
    simp at h
  exact ⟨c0, c1, c2, c3, c4, c5, c6, c7, rfl⟩

theorem index_to_string_length (n : Nat) : (index_to_string n MAX_STR_LEN).length = 8 := by
  rw [index_to_string_default]; rfl

theorem candidate_ne_nil (i : Nat) : candidate i ≠ [] := by
  unfold candidate
  rw [index_to_string_default]
  exact List.cons_ne_nil _ _

theorem decode_index_to_string (n : Nat) (h : n < 62 ^ 8) :
    decode (index_to_string n MAX_STR_LEN) = n := by
  rw [index_to_string_default, decode_eight]
  rw [pos_PRINTABLE_ASCII_at _ (Nat.mod_lt _ (by decide)),
    pos_PRINTABLE_ASCII_at _ (Nat.mod_lt _ (by decide)),
    pos_PRINTABLE_ASCII_at _ (Nat.mod_lt _ (by decide)),
    pos_PRINTABLE_ASCII_at _ (Nat.mod_lt _ (by decide)),
    pos_PRINTABLE_ASCII_at _ (Nat.mod_lt _ (by decide)),
    pos_PRINTABLE_ASCII_at _ (Nat.mod_lt _ (by decide)),
    pos_PRINTABLE_ASCII_at _ (Nat.mod_lt _ (by decide)),
    pos_PRINTABLE_ASCII_at _ (Nat.mod_lt _ (by decide))]
  norm_num at h ⊢
  omega

theorem index_to_string_injective (n1 n2 : Nat) (h1 : n1 < 62 ^ 8) (h2 : n2 < 62 ^ 8)
    (e : index_to_string n1 MAX_STR_LEN = index_to_string n2 MAX_STR_LEN) : n1 = n2 := by
  rw [← decode_index_to_string n1 h1, ← decode_index_to_string n2 h2, e]

theorem index_to_string_decode (s : Str) (hlen : s.length = 8)
    (hs : ∀ c, c ∈ s → c ∈ PRINTABLE_ASCII) :
    decode s < 62 ^ 8 ∧ index_to_string (decode s) MAX_STR_LEN = s := by
  obtain ⟨c0, c1, c2, c3, c4, c5, c6, c7, rfl⟩ := length_eq_eight s hlen
  obtain ⟨b0, a0⟩ := mem_PRINTABLE_ASCII c0 (hs c0 (by simp))
  obtain ⟨b1, a1⟩ := mem_PRINTABLE_ASCII c1 (hs c1 (by simp))
  obtain ⟨b2, a2⟩ := mem_PRINTABLE_ASCII c2 (hs c2 (by simp))
  obtain ⟨b3, a3⟩ := mem_PRINTABLE_ASCII c3 (hs c3 (by simp))
  obtain ⟨b4, a4⟩ := mem_PRINTABLE_ASCII c4 (hs c4 (by simp))
  obtain ⟨b5, a5⟩ := mem_PRINTABLE_ASCII c5 (hs c5 (by simp))
  obtain ⟨b6, a6⟩ := mem_PRINTABLE_ASCII c6 (hs c6 (by simp))
  obtain ⟨b7, a7⟩ := mem_PRINTABLE_ASCII c7 (hs c7 (by simp))
  rw [index_to_string_default, decode_eight]
  generalize pos c0 = d0 at *
  generalize pos c1 = d1 at *
  generalize pos c2 = d2 at *
  generalize pos c3 = d3 at *
  generalize pos c4 = d4 at *
  generalize pos c5 = d5 at *
  generalize pos c6 = d6 at *
  generalize pos c7 = d7 at *
  have e0 : (d0 + d1 * 62 + d2 * 62 ^ 2 + d3 * 62 ^ 3 + d4 * 62 ^ 4 + d5 * 62 ^ 5 + d6 * 62 ^ 6
      + d7 * 62 ^ 7) % 62 = d0 := by norm_num; omega
  have e1 : (d0 + d1 * 62 + d2 * 62 ^ 2 + d3 * 62 ^ 3 + d4 * 62 ^ 4 + d5 * 62 ^ 5 + d6 * 62 ^ 6
      + d7 * 62 ^ 7) / 62 % 62 = d1 := by norm_num; omega
  have e2 : (d0 + d1 * 62 + d2 * 62 ^ 2 + d3 * 62 ^ 3 + d4 * 62 ^ 4 + d5 * 62 ^ 5 + d6 * 62 ^ 6
      + d7 * 62 ^ 7) / 62 / 62 % 62 = d2 := by norm_num; omega
  have e3 : (d0 + d1 * 62 + d2 * 62 ^ 2 + d3 * 62 ^ 3 + d4 * 62 ^ 4 + d5 * 62 ^ 5 + d6 * 62 ^ 6
      + d7 * 62 ^ 7) / 62 / 62 / 62 % 62 = d3 := by norm_num; omega
  have e4 : (d0 + d1 * 62 + d2 * 62 ^ 2 + d3 * 62 ^ 3 + d4 * 62 ^ 4 + d5 * 62 ^ 5 + d6 * 62 ^ 6
      + d7 * 62 ^ 7) / 62 / 62 / 62 / 62 % 62 = d4 := by norm_num; omega
  have e5 : (d0 + d1 * 62 + d2 * 62 ^ 2 + d3 * 62 ^ 3 + d4 * 62 ^ 4 + d5 * 62 ^ 5 + d6 * 62 ^ 6
      + d7 * 62 ^ 7) / 62 / 62 / 62 / 62 / 62 % 62 = d5 := by norm_num; omega
  have e6 : (d0 + d1 * 62 + d2 * 62 ^ 2 + d3 * 62 ^ 3 + d4 * 62 ^ 4 + d5 * 62 ^ 5 + d6 * 62 ^ 6
      + d7 * 62 ^ 7) / 62 / 62 / 62 / 62 / 62 / 62 % 62 = d6 := by norm_num; omega
  have e7 : (d0 + d1 * 62 + d2 * 62 ^ 2 + d3 * 62 ^ 3 + d4 * 62 ^ 4 + d5 * 62 ^ 5 + d6 * 62 ^ 6
      + d7 * 62 ^ 7) / 62 / 62 / 62 / 62 / 62 / 62 / 62 % 62 = d7 := by norm_num; omega
  refine ⟨by norm_num; omega, ?_⟩
  rw [e0, e1, e2, e3, e4, e5, e6, e7, a0, a1, a2, a3, a4, a5, a6, a7]

/-! ## The variable-length indexer -/

theorem ex06_loop_append (fuel : Nat) :
    ∀ (n : Nat) (str : Str),
      ex06.index_to_string_loop fuel n str = str ++ ex06.index_to_string_loop fuel n [] := by
  induction fuel with
  | zero => intro n str; simp [ex06.index_to_string_loop]
  | succ fuel ih =>
    intro n str
    unfold ex06.index_to_string_loop
    by_cases h : n > 0
    · rw [if_pos h, if_pos h, ih _ (str ++ _), ih _ ([] ++ _)]
      simp
    · rw [if_neg h, if_neg h]; simp

theorem ex06_loop_value (fuel : Nat) :
    ∀ n : Nat, n < 62 ^ fuel → digits_value (ex06.index_to_string_loop fuel n []) = n := by
  induction fuel with
  | zero =>
    intro n h
    have h0 : n = 0 := by simpa using h
    subst h0; rfl
  | succ fuel ih =>
    intro n h
    unfold ex06.index_to_string_loop
    by_cases hn : n > 0
    · rw [if_pos hn, ex06_loop_append, PRINTABLE_ASCII_SIZE_eq]
      have hq : n / 62 < 62 ^ fuel := by
        rw [Nat.div_lt_iff_lt_mul (by decide)]
        rw [pow_succ] at h
        exact h
      show digits_value (PRINTABLE_ASCII_at (n % 62) :: ex06.index_to_string_loop fuel (n / 62) [])
        = n
      rw [digits_value, ih _ hq, pos_PRINTABLE_ASCII_at _ (Nat.mod_lt _ (by decide))]
      omega
    · rw [if_neg hn]
      have h0 : n = 0 := by omega
      subst h0; rfl

theorem ex06_index_to_string_value (n : Nat) (h : n < 2 ^ 64) :
    digits_value (ex06.index_to_string n) = n := by
  unfold ex06.index_to_string
  by_cases h0 : n = 0
  · rw [if_pos h0, h0]; decide
  · rw [if_neg h0]
    exact ex06_loop_value 64 n (lt_trans h (by norm_num))

theorem ex06_index_to_string_ne_nil (n : Nat) : ex06.index_to_string n ≠ [] := by
  unfold ex06.index_to_string
  by_cases h0 : n = 0
  · rw [if_pos h0]; exact List.cons_ne_nil _ _
  · rw [if_neg h0]
    have hn : n > 0 := Nat.pos_of_ne_zero h0
    show ex06.index_to_string_loop (63 + 1) n [] ≠ []
    unfold ex06.index_to_string_loop
    rw [if_pos hn, ex06_loop_append]
    simp

/-! ## Consequences for the three searches -/

theorem find_second_preimage_cases (N : Nat) (t : Str) :
    (find_second_preimage N t = [] ∧ ∀ i, i < N → ¬ preimage_hit t i) ∨
    (∃ i, i < N ∧ preimage_hit t i ∧ find_second_preimage N t = index_to_string i MAX_STR_LEN) := by
  rcases find_second_preimage_firstHit N t with ⟨_, hr, hno⟩ | ⟨_, i, hi, hp, hr, _⟩
  · exact Or.inl ⟨hr, hno⟩
  · exact Or.inr ⟨i, hi, hp, hr⟩

theorem find_str_with_hash_prefix_cases (H : Str → Str) (N : Nat) (p : Str) :
    ( ex06.find_str_with_hash_prefix H N p = [] ∧ ∀ i, i < N → ¬ prefix_hit H p i) ∨
    (∃ i, i < N ∧ prefix_hit H p i ∧
      ex06.find_str_with_hash_prefix H N p = "bitcoin".toList ++ ex06.index_to_string i) := by
  rcases find_str_with_hash_prefix_firstHit H N p with ⟨_, hr, hno⟩ | ⟨_, i, hi, hp, hr, _⟩
  · exact Or.inl ⟨hr, hno⟩
  · exact Or.inr ⟨i, hi, hp, hr⟩

/-- Indices 1 (`"10000000"`) and 1488 (`"0O000000"`) have the same digest. -/
theorem digest_1_eq_digest_1488 : digest 1 = digest 1488 := by decide

theorem candidate_ne_of_noCollisionBelow (i j : Nat) (hj : j < i) (hmin : NoCollisionBelow i) :
    candidate i ≠ candidate j := by
  have hi : i ≤ 1488 := by
    by_contra hgt
    exact hmin 1488 (by omega) 1 (by decide) digest_1_eq_digest_1488
  intro e
  have h := index_to_string_injective i j (lt_of_le_of_lt hi (by norm_num))
    (lt_trans hj (lt_of_le_of_lt hi (by norm_num))) e
  omega

theorem find_collision_hash_cases (N : Nat) :
    (find_collision_hash N = ([], []) ∧ NoCollisionBelow N) ∨
    (∃ i j, i < N ∧ j < i ∧ find_collision_hash N = (candidate i, candidate j) ∧
      digest j = digest i ∧ candidate i ≠ candidate j) := by
  rcases find_collision_hash_run_inv N with ⟨_, hr, hno, _, _⟩ | ⟨_, i, j, hi, hj, hr, hd, hmin⟩
  · exact Or.inl ⟨hr, hno⟩
  · exact Or.inr ⟨i, j, hi, hj, hr, hd, candidate_ne_of_noCollisionBelow i j hj hmin⟩

/-- The collision search over `[0, N)` finds something as soon as some index below `N` has
the digest of an earlier index. -/
theorem find_collision_hash_fst_ne_nil (N i j : Nat) (hi : i < N) (hj : j < i)
    (hd : digest j = digest i) : (find_collision_hash N).1 ≠ [] := by
  rcases find_collision_hash_cases N with ⟨_, hno⟩ | ⟨i', j', _, _, h, _, _⟩
  · exact absurd hd (hno i hi j hj)
  · rw [h]; exact candidate_ne_nil i'

/-! ## The claims -/

/-- C1: the fixed-width indexer of ex04.cpp and ex05.cpp, called with the default length
`MAX_STR_LEN = 8`, is injective on `[0, 62^8)`: distinct indices below `62^8` give distinct
strings. -/
theorem bounded_indexer_injective (n1 n2 : Nat) (h1 : n1 < 62 ^ 8) (h2 : n2 < 62 ^ 8)
    (hne : n1 ≠ n2) : index_to_string n1 MAX_STR_LEN ≠ index_to_string n2 MAX_STR_LEN :=
  fun e => hne (index_to_string_injective n1 n2 h1 h2 e)

theorem bounded_indexer_injective_witness :
    index_to_string 61 MAX_STR_LEN ≠ index_to_string 62 MAX_STR_LEN :=
  bounded_indexer_injective 61 62 (by norm_num) (by norm_num) (by decide)

/-- C2: with `decode(s)` the sum over `i < 8` of `pos(s[i]) * 62^i`, `decode` is a two-sided
inverse of the fixed-width indexer: `decode(index_to_string(n)) = n` for every `n < 62^8`,
`index_to_string(decode(s)) = s` for every 8-character string over the alphabet, and
`index_to_string` is a bijection from `[0, 62^8)` onto the 8-character alphanumeric
strings. -/
theorem bounded_indexer_bijective :
    (∀ n, n < 62 ^ 8 → decode (index_to_string n MAX_STR_LEN) = n) ∧
    (∀ s : Str, s.length = 8 → (∀ c, c ∈ s → c ∈ PRINTABLE_ASCII) →
      index_to_string (decode s) MAX_STR_LEN = s) ∧
    Set.BijOn (fun n => index_to_string n MAX_STR_LEN) {n | n < 62 ^ 8}
      {s | s.length = 8 ∧ ∀ c, c ∈ s → c ∈ PRINTABLE_ASCII} := by
  refine ⟨decode_index_to_string, fun s hl hs => (index_to_string_decode s hl hs).2, ?_, ?_, ?_⟩
  · intro n _
    refine ⟨index_to_string_length n, ?_⟩
    intro c hc
    change c ∈ index_to_string n MAX_STR_LEN at hc
    rw [index_to_string_default] at hc
    simp only [List.mem_cons, List.mem_singleton, List.not_mem_nil, or_false] at hc
    rcases hc with h | h | h | h | h | h | h | h <;>
      (rw [h]; exact PRINTABLE_ASCII_at_mem _ (Nat.mod_lt _ (by decide)))
  · intro n1 h1 n2 h2 e
    exact index_to_string_injective n1 n2 h1 h2 e
  · intro s hs
    exact ⟨decode s, (index_to_string_decode s hs.1 hs.2).1, (index_to_string_decode s hs.1 hs.2).2⟩

theorem bounded_indexer_bijective_witness :
    decode (index_to_string 123456789 MAX_STR_LEN) = 123456789 ∧
    index_to_string (decode "Zz09aA5k".toList) MAX_STR_LEN = "Zz09aA5k".toList :=
  ⟨bounded_indexer_bijective.1 123456789 (by norm_num),
   bounded_indexer_bijective.2.1 "Zz09aA5k".toList (by decide) (by decide)⟩

/-- C3: if `find_second_preimage(maximum_tries, t)` returns a non-empty string `r`, then
`simple_hash(r) = simple_hash(t)`, `r ≠ t`, and `r = index_to_string(i)` for some
`i < maximum_tries`. -/
theorem second_preimage_hit_valid (maximum_tries : Nat) (t r : Str)
    (hr : find_second_preimage maximum_tries t = r) (hne : r ≠ []) :
    simple_hash r = simple_hash t ∧ r ≠ t ∧
      ∃ i, i < maximum_tries ∧ r = index_to_string i MAX_STR_LEN := by
  rcases find_second_preimage_cases maximum_tries t with ⟨h, _⟩ | ⟨i, hi, hp, h⟩
  · exact absurd (hr.symm.trans h) hne
  · have e : r = index_to_string i MAX_STR_LEN := hr.symm.trans h
    rw [e]
    exact ⟨hp.1, hp.2, i, hi, rfl⟩

set_option maxRecDepth 100000 in
theorem second_preimage_hit_valid_witness :
    simple_hash "10000000".toList = simple_hash "0O000000".toList ∧
    "10000000".toList ≠ "0O000000".toList ∧
    ∃ i, i < 2 ∧ "10000000".toList = index_to_string i MAX_STR_LEN :=
  second_preimage_hit_valid 2 "0O000000".toList "10000000".toList (by decide) (by decide)

/-- C4: for every `maximum_combinations`, if `find_collision_hash` returns a pair `(a, b)` with
`a` non-empty, then `a = index_to_string(i)` and `b = index_to_string(j)` for indices
`j < i < maximum_combinations`, `a ≠ b` and `simple_hash(a) = simple_hash(b)`. -/
theorem collision_hit_valid (maximum_combinations : Nat) (a b : Str)
    (hr : find_collision_hash maximum_combinations = (a, b)) (hne : a ≠ []) :
    ∃ i j, j < i ∧ i < maximum_combinations ∧ a = index_to_string i MAX_STR_LEN ∧
      b = index_to_string j MAX_STR_LEN ∧ a ≠ b ∧ simple_hash a = simple_hash b := by
  rcases find_collision_hash_cases maximum_combinations with ⟨h, _⟩ | ⟨i, j, hi, hj, h, hd, hcand⟩
  · rw [hr] at h
    exact absurd (congrArg Prod.fst h) hne
  · rw [hr] at h
    have ea : a = candidate i := congrArg Prod.fst h
    have eb : b = candidate j := congrArg Prod.snd h
    refine ⟨i, j, hj, hi, ea, eb, ?_, ?_⟩
    · rw [ea, eb]; exact hcand
    · rw [ea, eb]; exact hd.symm

theorem collision_hit_valid_witness :
    ∃ i j, j < i ∧ i < 1489 ∧ (find_collision_hash 1489).1 = index_to_string i MAX_STR_LEN ∧
      (find_collision_hash 1489).2 = index_to_string j MAX_STR_LEN ∧
      (find_collision_hash 1489).1 ≠ (find_collision_hash 1489).2 ∧
      simple_hash (find_collision_hash 1489).1 = simple_hash (find_collision_hash 1489).2 :=
  collision_hit_valid 1489 (find_collision_hash 1489).1 (find_collision_hash 1489).2
    (@Prod.mk.eta _ _ (find_collision_hash 1489)).symm
    (find_collision_hash_fst_ne_nil 1489 1488 1 (by decide) (by decide) digest_1_eq_digest_1488)

/-- C5: for every hash function `H` in place of `sha256`, if
`find_str_with_hash_prefix(maximum_tries, p)` returns a non-empty string `r`, then
`r = "bitcoin" ++ index_to_string(i)` for some `i < maximum_tries` and `H(r)` starts with `p`;
and the test `H(r).substr(0, |p|) == p` of the code holds exactly when the digest starts
with `p`, for every digest and every `p` (empty or longer than the digest included). -/
theorem prefix_hit_valid :
    (∀ (H : Str → Str) (maximum_tries : Nat) (p r : Str),
      ex06.find_str_with_hash_prefix H maximum_tries p = r → r ≠ [] →
        (∃ i, i < maximum_tries ∧ r = "bitcoin".toList ++ ex06.index_to_string i) ∧
          p <+: H r) ∧
    (∀ hash p : Str, ex06.substr0 hash p.length = p ↔ p <+: hash) := by
  refine ⟨?_, substr0_eq_iff_starts_with⟩
  intro H N p r hr hne
  rcases find_str_with_hash_prefix_cases H N p with ⟨h, _⟩ | ⟨i, hi, hp, h⟩
  · exact absurd (hr.symm.trans h) hne
  · have e : r = "bitcoin".toList ++ ex06.index_to_string i := hr.symm.trans h
    refine ⟨⟨i, hi, e⟩, ?_⟩
    rw [e]
    exact (substr0_eq_iff_starts_with _ _).mp hp

set_option maxRecDepth 100000 in
theorem prefix_hit_valid_witness :
    ((∃ i, i < 5 ∧ "bitcoin3".toList = "bitcoin".toList ++ ex06.index_to_string i) ∧
      "ca".toList <+: (fun s : Str => if s = "bitcoin3".toList then "cafe".toList else "beef".toList)
        "bitcoin3".toList) ∧
    (ex06.substr0 "cafe".toList "cafe00".toList.length = "cafe00".toList ↔
      "cafe00".toList <+: "cafe".toList) :=
  ⟨prefix_hit_valid.1
      (fun s : Str => if s = "bitcoin3".toList then "cafe".toList else "beef".toList)
      5 "ca".toList "bitcoin3".toList (by decide) (by decide),
   prefix_hit_valid.2 "cafe".toList "cafe00".toList⟩

/-- C6: a sequential scan of `[0, N)` that meets no index satisfying the search's test returns
the empty value: `find_second_preimage` returns `""` when no `i < N` has the digest of `t`
with a string different from `t`; `find_str_with_hash_prefix` returns `""` when no `i < N` has
a digest of `"bitcoin" ++ index_to_string(i)` starting with the prefix; `find_collision_hash`
returns `("", "")` when no two distinct indices below `N` have equal digests. -/
theorem no_hit_returns_empty :
    (∀ (N : Nat) (t : Str),
      (∀ i, i < N → ¬ (simple_hash (index_to_string i MAX_STR_LEN) = simple_hash t ∧
        index_to_string i MAX_STR_LEN ≠ t)) →
      find_second_preimage N t = []) ∧
    (∀ (H : Str → Str) (N : Nat) (p : Str),
      (∀ i, i < N → ¬ p <+: H ("bitcoin".toList ++ ex06.index_to_string i)) →
      ex06.find_str_with_hash_prefix H N p = []) ∧
    (∀ N : Nat,
      (∀ i, i < N → ∀ j, j < N → i ≠ j →
        simple_hash (index_to_string i MAX_STR_LEN) ≠ simple_hash (index_to_string j MAX_STR_LEN)) →
      find_collision_hash N = ([], [])) := by
  refine ⟨?_, ?_, ?_⟩
  · intro N t hno
    rcases find_second_preimage_cases N t with ⟨h, _⟩ | ⟨i, hi, hp, _⟩
    · exact h
    · exact absurd hp (hno i hi)
  · intro H N p hno
    rcases find_str_with_hash_prefix_cases H N p with ⟨h, _⟩ | ⟨i, hi, hp, _⟩
    · exact h
    · exact absurd ((substr0_eq_iff_starts_with _ _).mp hp) (hno i hi)
  · intro N hno
    rcases find_collision_hash_cases N with ⟨h, _⟩ | ⟨i, j, hi, hj, _, hd, _⟩
    · exact h
    · exact absurd hd (hno j (lt_trans hj hi) i hi (Nat.ne_of_lt hj))

set_option maxRecDepth 100000 in
theorem no_hit_returns_empty_witness :
    find_second_preimage 2 "eliam".toList = [] ∧
    ex06.find_str_with_hash_prefix (fun _ => "beef".toList) 3 "ca".toList = [] ∧
    find_collision_hash 2 = ([], []) :=
  ⟨no_hit_returns_empty.1 2 "eliam".toList (by decide),
   no_hit_returns_empty.2.1 (fun _ => "beef".toList) 3 "ca".toList (by decide),
   no_hit_returns_empty.2.2 2 (by decide)⟩

/-- C7: a sequential scan of `[0, N)` whose range holds an index satisfying the test does not
return the empty value, and what it returns is a valid hit. Second preimage: some `i < N` with
the digest of `t` and a different string; prefix: some `i < N` whose digest starts with the
prefix; collision: some `i < N` with the digest of an earlier index `j < i`. -/
theorem hit_in_range_not_empty :
    (∀ (N : Nat) (t : Str),
      (∃ i, i < N ∧ simple_hash (index_to_string i MAX_STR_LEN) = simple_hash t ∧
        index_to_string i MAX_STR_LEN ≠ t) →
      find_second_preimage N t ≠ [] ∧
        simple_hash (find_second_preimage N t) = simple_hash t ∧
        find_second_preimage N t ≠ t) ∧
    (∀ (H : Str → Str) (N : Nat) (p : Str),
      (∃ i, i < N ∧ p <+: H ("bitcoin".toList ++ ex06.index_to_string i)) →
      ex06.find_str_with_hash_prefix H N p ≠ [] ∧
        p <+: H ( ex06.find_str_with_hash_prefix H N p)) ∧
    (∀ N : Nat,
      (∃ i, i < N ∧ ∃ j, j < i ∧
        simple_hash (index_to_string j MAX_STR_LEN) = simple_hash (index_to_string i MAX_STR_LEN)) →
      (find_collision_hash N).1 ≠ [] ∧ find_collision_hash N ≠ ([], []) ∧
        (find_collision_hash N).1 ≠ (find_collision_hash N).2 ∧
        simple_hash (find_collision_hash N).1 = simple_hash (find_collision_hash N).2) := by
  refine ⟨?_, ?_, ?_⟩
  · rintro N t ⟨i, hi, hp⟩
    rcases find_second_preimage_cases N t with ⟨_, hno⟩ | ⟨i', _, hp', h⟩
    · exact absurd hp (hno i hi)
    · rw [h]
      exact ⟨candidate_ne_nil i', hp'.1, hp'.2⟩
  · rintro H N p ⟨i, hi, hp⟩
    rcases find_str_with_hash_prefix_cases H N p with ⟨_, hno⟩ | ⟨i', _, hp', h⟩
    · exact absurd ((substr0_eq_iff_starts_with _ _).mpr hp) (hno i hi)
    · rw [h]
      exact ⟨by simp, (substr0_eq_iff_starts_with _ _).mp hp'⟩
  · rintro N ⟨i, hi, j, hj, hd⟩
    rcases find_collision_hash_cases N with ⟨_, hno⟩ | ⟨i', j', _, _, h, hd', hcand⟩
    · exact absurd hd (hno i hi j hj)
    · rw [h]
      refine ⟨candidate_ne_nil i', ?_, hcand, hd'.symm⟩
      intro e
      exact candidate_ne_nil i' (congrArg Prod.fst e)

set_option maxRecDepth 100000 in
theorem hit_in_range_not_empty_witness :
    (find_second_preimage 2 "0O000000".toList ≠ [] ∧
      simple_hash (find_second_preimage 2 "0O000000".toList) = simple_hash "0O000000".toList ∧
      find_second_preimage 2 "0O000000".toList ≠ "0O000000".toList) ∧
    ( ex06.find_str_with_hash_prefix (fun _ => "cafe".toList) 1 "ca".toList ≠ [] ∧
      "ca".toList <+: (fun _ => "cafe".toList)
        ( ex06.find_str_with_hash_prefix (fun _ => "cafe".toList) 1 "ca".toList)) ∧
    ((find_collision_hash 1489).1 ≠ [] ∧ find_collision_hash 1489 ≠ ([], []) ∧
      (find_collision_hash 1489).1 ≠ (find_collision_hash 1489).2 ∧
      simple_hash (find_collision_hash 1489).1 = simple_hash (find_collision_hash 1489).2) :=
  ⟨hit_in_range_not_empty.1 2 "0O000000".toList ⟨1, by decide, by decide⟩,
   hit_in_range_not_empty.2.1 (fun _ => "cafe".toList) 1 "ca".toList ⟨0, by decide, by decide⟩,
   hit_in_range_not_empty.2.2 1489 ⟨1488, by decide, 1, by decide, digest_1_eq_digest_1488⟩⟩

/-- C8: the buffer of the fixed-width indexer is created with `MAX_STR_LEN` characters whatever
`max_str_len` is: `index_to_string(0, 1)` is `"00000000"`, of length 8 and not 1. -/
theorem index_to_string_length_at_max_len_1 :
    index_to_string 0 1 = "00000000".toList ∧ (index_to_string 0 1).length = 8 ∧
      (index_to_string 0 1).length ≠ 1 := by decide

/-- C9: `index_to_string(0, L)` is `'0'` repeated `MAX_STR_LEN = 8` times, not `L` times:
for `L = 1` it differs from the one-character string `"0"`. -/
theorem index_to_string_zero_at_max_len_1 :
    index_to_string 0 1 = List.replicate 8 '0' ∧ index_to_string 0 1 ≠ List.replicate 1 '0' := by
  decide

/-- C10: the variable-length indexer of ex06.cpp is injective over the 64-bit index range:
distinct `n1, n2 < 2^64` give distinct strings. -/
theorem variable_indexer_injective (n1 n2 : Nat) (h1 : n1 < 2 ^ 64) (h2 : n2 < 2 ^ 64)
    (hne : n1 ≠ n2) : ex06.index_to_string n1 ≠ ex06.index_to_string n2 := by
  intro e
  apply hne
  rw [← ex06_index_to_string_value n1 h1, ← ex06_index_to_string_value n2 h2, e]

theorem variable_indexer_injective_witness :
    ex06.index_to_string 0 ≠ ex06.index_to_string 62 :=
  variable_indexer_injective 0 62 (by norm_num) (by norm_num) (by decide)

/-! ## Degenerate arguments, cancellation and wrap-around -/

theorem index_to_string_loop_zero_max_len (n : Nat) :
    index_to_string n 0 = List.replicate MAX_STR_LEN (PRINTABLE_ASCII_at 0) := rfl

theorem find_second_preimage_body_cancelled (th t : Str) (i : Nat) (s : SearchState)
    (hc : s.cancelled = true) : find_second_preimage_body th t i s = s := by
  simp [find_second_preimage_body, hc]

theorem find_str_with_hash_prefix_body_cancelled (H : Str → Str) (p : Str) (i : Nat)
    (s : SearchState) (hc : s.cancelled = true) :
    ex06.find_str_with_hash_prefix_body H p i s = s := by
  simp [ex06.find_str_with_hash_prefix_body, hc]

/-- C12, as stated, fails: `index_to_string(1, 0)` returns normally the string `"00000000"`,
which is the candidate of index 0, and it differs from `index_to_string(1, 1)`, the result
for `max_len` clamped to 1. -/
theorem index_to_string_max_len_zero_returns :
    index_to_string 1 0 = "00000000".toList ∧
    index_to_string 1 0 = index_to_string 0 MAX_STR_LEN ∧
    index_to_string 1 0 ≠ index_to_string 1 1 := by decide

/-- C12, amended: `max_len = 0` is neither rejected nor clamped: for every `n`,
`index_to_string(n, 0)` returns normally, no position of the buffer is written, so every
character of the result is `'0'` and the result does not depend on `n`. -/
theorem index_to_string_max_len_zero (n : Nat) :
    (∀ c, c ∈ index_to_string n 0 → c = '0') ∧ index_to_string n 0 = index_to_string 0 0 := by
  refine ⟨?_, rfl⟩
  intro c hc
  rw [index_to_string_loop_zero_max_len] at hc
  exact List.eq_of_mem_replicate hc

set_option maxRecDepth 100000 in
/-- C13, as stated, fails: with an empty range the three searches return their not-found
value, the same value as a scan of a non-empty range that finds nothing. -/
theorem empty_range_returns_empty_value :
    find_collision_hash 0 = ([], []) ∧ find_collision_hash 0 = find_collision_hash 2 ∧
    find_second_preimage 0 "eliam".toList = [] ∧
    find_second_preimage 0 "eliam".toList = find_second_preimage 2 "eliam".toList ∧
    ex06.find_str_with_hash_prefix (fun _ => "cafe".toList) 0 "cafe".toList = [] ∧
    ex06.find_str_with_hash_prefix (fun _ => "cafe".toList) 0 "beef".toList =
      ex06.find_str_with_hash_prefix (fun _ => "cafe".toList) 2 "beef".toList := by
  decide

/-- C13, amended: an empty search range is not rejected: `find_collision_hash(0)`,
`find_second_preimage(0, t)` and `find_str_with_hash_prefix(0, p)` process no candidate (the
cancellation flag stays unset and the map stays empty) and return the not-found value
`("", "")` or `""`. -/
theorem empty_range_is_not_found (t p : Str) (H : Str → Str) :
    find_collision_hash 0 = ([], []) ∧ find_second_preimage 0 t = [] ∧
    ex06.find_str_with_hash_prefix H 0 p = [] ∧
    (find_collision_hash_run 0).cancelled = false ∧
    (∀ h, (find_collision_hash_run 0).hash_to_str_map h = none) ∧
    (find_second_preimage_run 0 t).cancelled = false ∧
    (ex06.find_str_with_hash_prefix_run H 0 p).cancelled = false :=
  ⟨rfl, rfl, rfl, rfl, fun _ => rfl, rfl, rfl⟩

theorem find_collision_hash_body_result (i : Nat) (s : CollisionState)
    (h : (find_collision_hash_body i s).result ≠ s.result) :
    (find_collision_hash_body i s).cancelled = true := by
  cases hc : s.cancelled with
  | true => rw [find_collision_hash_body_cancelled i s hc]; exact hc
  | false =>
    cases hm : s.hash_to_str_map (digest i) with
    | some found => rw [find_collision_hash_body_some i s found hc hm]
    | none =>
      rw [find_collision_hash_body_none i s hc hm] at h
      exact absurd rfl h

theorem find_second_preimage_body_result (th t : Str) (i : Nat) (s : SearchState)
    (h : (find_second_preimage_body th t i s).result ≠ s.result) :
    (find_second_preimage_body th t i s).cancelled = true := by
  by_cases h1 : s.cancelled = true
  · rw [find_second_preimage_body_cancelled th t i s h1]; exact h1
  · by_cases h2 : simple_hash (index_to_string i MAX_STR_LEN) = th ∧
        index_to_string i MAX_STR_LEN ≠ t
    · unfold find_second_preimage_body
      rw [if_neg h1]
      show (if simple_hash (index_to_string i MAX_STR_LEN) = th ∧
          index_to_string i MAX_STR_LEN ≠ t then
            ({ cancelled := true, result := index_to_string i MAX_STR_LEN } : SearchState)
          else s).cancelled = true
      rw [if_pos h2]
    · unfold find_second_preimage_body at h
      rw [if_neg h1] at h
      change (if simple_hash (index_to_string i MAX_STR_LEN) = th ∧
          index_to_string i MAX_STR_LEN ≠ t then
            ({ cancelled := true, result := index_to_string i MAX_STR_LEN } : SearchState)
          else s).result ≠ s.result at h
      rw [if_neg h2] at h
      exact absurd rfl h

theorem find_str_with_hash_prefix_body_result (H : Str → Str) (p : Str) (i : Nat)
    (s : SearchState) (h : (ex06.find_str_with_hash_prefix_body H p i s).result ≠ s.result) :
    (ex06.find_str_with_hash_prefix_body H p i s).cancelled = true := by
  by_cases h1 : s.cancelled = true
  · rw [find_str_with_hash_prefix_body_cancelled H p i s h1]; exact h1
  · by_cases h2 : ex06.substr0 (H ("bitcoin".toList ++ ex06.index_to_string i)) p.length = p
    · unfold ex06.find_str_with_hash_prefix_body
      rw [if_neg h1]
      show (if ex06.substr0 (H ("bitcoin".toList ++ ex06.index_to_string i)) p.length = p then
            ({ cancelled := true, result := "bitcoin".toList ++ ex06.index_to_string i } :
              SearchState)
          else s).cancelled = true
      rw [if_pos h2]
    · unfold ex06.find_str_with_hash_prefix_body at h
      rw [if_neg h1] at h
      change (if ex06.substr0 (H ("bitcoin".toList ++ ex06.index_to_string i)) p.length = p then
            ({ cancelled := true, result := "bitcoin".toList ++ ex06.index_to_string i } :
              SearchState)
          else s).result ≠ s.result at h
      rw [if_neg h2] at h
      exact absurd rfl h

/-- C15: cancellation is monotone in the step relation of the three search loops, where a
step is the loop body run by some worker for some index: a step that stores a result sets
the cancelled flag; from a state whose flag is set, every sequence of steps ends in a state
whose flag is still set, and in fact in the same state, so no step resets the flag and no
further index is processed. -/
theorem cancellation_monotone :
    ((∀ i s, (find_collision_hash_body i s).result ≠ s.result →
        (find_collision_hash_body i s).cancelled = true) ∧
      ∀ s s', Relation.ReflTransGen collision_step s s' → s.cancelled = true →
        s'.cancelled = true ∧ s' = s) ∧
    ((∀ th t i s, (find_second_preimage_body th t i s).result ≠ s.result →
        (find_second_preimage_body th t i s).cancelled = true) ∧
      ∀ th t s s', Relation.ReflTransGen (preimage_step th t) s s' → s.cancelled = true →
        s'.cancelled = true ∧ s' = s) ∧
    ((∀ H p i s, (ex06.find_str_with_hash_prefix_body H p i s).result ≠ s.result →
        (ex06.find_str_with_hash_prefix_body H p i s).cancelled = true) ∧
      ∀ H p s s', Relation.ReflTransGen (prefix_step H p) s s' → s.cancelled = true →
        s'.cancelled = true ∧ s' = s) := by
  refine ⟨⟨find_collision_hash_body_result, ?_⟩, ⟨find_second_preimage_body_result, ?_⟩,
    ⟨find_str_with_hash_prefix_body_result, ?_⟩⟩
  · intro s s' h hc
    induction h with
    | refl => exact ⟨hc, rfl⟩
    | tail _ hstep ih =>
      obtain ⟨i, rfl⟩ := hstep
      obtain ⟨hc', e⟩ := ih
      rw [find_collision_hash_body_cancelled _ _ hc']
      exact ⟨hc', e⟩
  · intro th t s s' h hc
    induction h with
    | refl => exact ⟨hc, rfl⟩
    | tail _ hstep ih =>
      obtain ⟨i, rfl⟩ := hstep
      obtain ⟨hc', e⟩ := ih
      rw [find_second_preimage_body_cancelled _ _ _ _ hc']
      exact ⟨hc', e⟩
  · intro H p s s' h hc
    induction h with
    | refl => exact ⟨hc, rfl⟩
    | tail _ hstep ih =>
      obtain ⟨i, rfl⟩ := hstep
      obtain ⟨hc', e⟩ := ih
      rw [find_str_with_hash_prefix_body_cancelled _ _ _ _ hc']
      exact ⟨hc', e⟩

/-- C16: for every 64-bit `n` and every position `i < 8`, character `i` of
`index_to_string(n)` (default length 8) is `PRINTABLE_ASCII[(n / 62^i) mod 62]`, least
significant base-62 digit first; the alphabet has 62 distinct characters;
`index_to_string(1) = "10000000"` and `index_to_string(62) = "01000000"`. -/
theorem bounded_indexer_digit_order :
    (∀ n i, n < 2 ^ 64 → i < 8 →
      (index_to_string n MAX_STR_LEN)[i]? = some (PRINTABLE_ASCII_at (n / 62 ^ i % 62))) ∧
    PRINTABLE_ASCII.length = 62 ∧ PRINTABLE_ASCII.Nodup ∧
    index_to_string 1 MAX_STR_LEN = "10000000".toList ∧
    index_to_string 62 MAX_STR_LEN = "01000000".toList := by
  refine ⟨?_, by decide, by decide, by decide, by decide⟩
  intro n i _ hi
  rw [index_to_string_default]
  interval_cases i <;> simp [Nat.div_div_eq_div_mul]

theorem index_to_string_mod (n : Nat) :
    index_to_string n MAX_STR_LEN = index_to_string (n % 62 ^ 8) MAX_STR_LEN := by
  rw [index_to_string_default, index_to_string_default]
  have h8 : (62 : Nat) ^ 8 = 218340105584896 := by norm_num
  rw [h8]
  have e0 : n % 218340105584896 % 62 = n % 62 := by omega
  have e1 : n % 218340105584896 / 62 % 62 = n / 62 % 62 := by omega
  have e2 : n % 218340105584896 / 62 / 62 % 62 = n / 62 / 62 % 62 := by omega
  have e3 : n % 218340105584896 / 62 / 62 / 62 % 62 = n / 62 / 62 / 62 % 62 := by omega
  have e4 : n % 218340105584896 / 62 / 62 / 62 / 62 % 62 = n / 62 / 62 / 62 / 62 % 62 := by
    omega
  have e5 : n % 218340105584896 / 62 / 62 / 62 / 62 / 62 % 62
      = n / 62 / 62 / 62 / 62 / 62 % 62 := by omega
  have e6 : n % 218340105584896 / 62 / 62 / 62 / 62 / 62 / 62 % 62
      = n / 62 / 62 / 62 / 62 / 62 / 62 % 62 := by omega
  have e7 : n % 218340105584896 / 62 / 62 / 62 / 62 / 62 / 62 / 62 % 62
      = n / 62 / 62 / 62 / 62 / 62 / 62 / 62 % 62 := by omega
  rw [e0, e1, e2, e3, e4, e5, e6, e7]

/-- C17: the fixed-width indexer wraps outside its space: for every 64-bit `n`,
`index_to_string(n) = index_to_string(n mod 62^8)`; indices `0` and `62^8` both give
`"00000000"`; and on every range `[0, N)` with `N > 62^8` it is not injective. -/
theorem bounded_indexer_wraps :
    (∀ n, n < 2 ^ 64 →
      index_to_string n MAX_STR_LEN = index_to_string (n % 62 ^ 8) MAX_STR_LEN) ∧
    index_to_string 0 MAX_STR_LEN = "00000000".toList ∧
    index_to_string (62 ^ 8) MAX_STR_LEN = "00000000".toList ∧
    (∀ N, 62 ^ 8 < N → ∃ n1 n2, n1 < N ∧ n2 < N ∧ n1 ≠ n2 ∧
      index_to_string n1 MAX_STR_LEN = index_to_string n2 MAX_STR_LEN) := by
  refine ⟨fun n _ => index_to_string_mod n, by decide, ?_, ?_⟩
  · rw [index_to_string_mod]; decide
  · intro N hN
    refine ⟨0, 62 ^ 8, by omega, hN, by norm_num, ?_⟩
    rw [index_to_string_mod (62 ^ 8)]; rfl

theorem cancellation_monotone_witness :
    (find_second_preimage_body "21e844df".toList "0O000000".toList 5
        { cancelled := true, result := "10000000".toList }).cancelled = true ∧
      find_second_preimage_body "21e844df".toList "0O000000".toList 5
        { cancelled := true, result := "10000000".toList } =
        { cancelled := true, result := "10000000".toList } :=
  cancellation_monotone.2.1.2 "21e844df".toList "0O000000".toList
    { cancelled := true, result := "10000000".toList } _
    (Relation.ReflTransGen.single ⟨5, rfl⟩) rfl

/-! ## Shape of the variable-length indexer -/

theorem map_digit_char_succ (n k : Nat) :
    (List.range (k + 1)).map (digit_char n) =
      PRINTABLE_ASCII_at (n % 62) :: (List.range k).map (digit_char (n / 62)) := by
  rw [List.range_succ_eq_map, List.map_cons, List.map_map]
  congr 1
  · simp [digit_char]
  · apply List.map_congr_left
    intro i _
    simp only [Function.comp, digit_char, Nat.div_div_eq_div_mul, pow_succ, Nat.succ_eq_add_one]
    rw [Nat.mul_comm]

theorem ex06_loop_shape (k : Nat) :
    ∀ fuel n : Nat, n < 62 ^ k → k ≤ fuel → (k = 0 ∨ 62 ^ (k - 1) ≤ n) →
      ex06.index_to_string_loop fuel n [] = (List.range k).map (digit_char n) := by
  induction k with
  | zero =>
    intro fuel n hn _ _
    have h0 : n = 0 := by simpa using hn
    subst h0
    cases fuel <;> simp [ex06.index_to_string_loop]
  | succ k ih =>
    intro fuel n hn hf hlow
    have hk : 62 ^ k ≤ n := by
      rcases hlow with h | h
      · exact absurd h (Nat.succ_ne_zero k)
      · simpa using h
    have hpos : n > 0 := lt_of_lt_of_le (Nat.pow_pos (by decide)) hk
    obtain ⟨f, rfl⟩ : ∃ f, fuel = f + 1 := ⟨fuel - 1, by omega⟩
    unfold ex06.index_to_string_loop
    rw [if_pos hpos, ex06_loop_append, PRINTABLE_ASCII_SIZE_eq, map_digit_char_succ]
    have hq : n / 62 < 62 ^ k := by
      rw [Nat.div_lt_iff_lt_mul (by decide)]
      rw [pow_succ] at hn
      exact hn
    have hlow' : k = 0 ∨ 62 ^ (k - 1) ≤ n / 62 := by
      rcases Nat.eq_zero_or_pos k with h | h
      · exact Or.inl h
      · right
        rw [Nat.le_div_iff_mul_le (by decide)]
        have e : 62 ^ (k - 1) * 62 = 62 ^ k := by
          rw [← pow_succ]; congr 1; omega
        rw [e]; exact hk
    rw [ih f (n / 62) hq (by omega) hlow']
    rfl

/-- The number of base-62 digits of a positive `n`. -/
theorem exists_digit_count (n : Nat) (hn : 0 < n) :
    ∃ k, 0 < k ∧ 62 ^ (k - 1) ≤ n ∧ n < 62 ^ k :=
  ⟨Nat.log 62 n + 1, Nat.succ_pos _, Nat.pow_log_le_self 62 (Nat.pos_iff_ne_zero.mp hn),
    Nat.lt_pow_succ_log_self (by decide) n⟩

theorem digit_count_le (n k b : Nat) (hlow : 62 ^ (k - 1) ≤ n) (hn : n < 62 ^ b) (hk : 0 < k) :
    k ≤ b := by
  have h : 62 ^ (k - 1) < 62 ^ b := lt_of_le_of_lt hlow hn
  have := (Nat.pow_lt_pow_iff_right (by decide : 1 < 62)).mp h
  omega

theorem ex06_index_to_string_shape (n k : Nat) (hpos : 0 < n) (h64 : n < 2 ^ 64)
    (hlow : 62 ^ (k - 1) ≤ n) (hn : n < 62 ^ k) :
    ex06.index_to_string n = (List.range k).map (digit_char n) := by
  have hk : 0 < k := by
    rcases Nat.eq_zero_or_pos k with h | h
    · subst h; simp at hn; omega
    · exact h
  have hk11 : k ≤ 11 := digit_count_le n k 11 hlow (lt_trans h64 (by norm_num)) hk
  unfold ex06.index_to_string
  rw [if_neg (by omega)]
  exact ex06_loop_shape k 64 n hn (by omega) (Or.inr hlow)

theorem PRINTABLE_ASCII_at_ne_zero_char : ∀ d, d < 62 → d ≠ 0 → PRINTABLE_ASCII_at d ≠ '0' := by
  decide

/-- C11: shape of the variable-length indexer of ex06.cpp: `index_to_string(0) = "0"`; for
every 64-bit `n > 0` the output has `k` characters with `62^(k-1) ≤ n < 62^k` and `k ≤ 11`,
character `i` is `PRINTABLE_ASCII[(n / 62^i) mod 62]`, and the last character is not `'0'`. -/
theorem variable_indexer_shape :
    ex06.index_to_string 0 = "0".toList ∧
    ∀ n, 0 < n → n < 2 ^ 64 →
      62 ^ ((ex06.index_to_string n).length - 1) ≤ n ∧
      n < 62 ^ (ex06.index_to_string n).length ∧
      (ex06.index_to_string n).length ≤ 11 ∧
      (∀ i, i < (ex06.index_to_string n).length →
        (ex06.index_to_string n)[i]? = some (PRINTABLE_ASCII_at (n / 62 ^ i % 62))) ∧
      (ex06.index_to_string n).getLast? ≠ some '0' := by
  refine ⟨by decide, ?_⟩
  intro n hpos h64
  obtain ⟨k, hk, hlow, hn⟩ := exists_digit_count n hpos
  have hshape := ex06_index_to_string_shape n k hpos h64 hlow hn
  have hlen : (ex06.index_to_string n).length = k := by rw [hshape]; simp
  have hk11 : k ≤ 11 := digit_count_le n k 11 hlow (lt_trans h64 (by norm_num)) hk
  rw [hlen]
  refine ⟨hlow, hn, hk11, ?_, ?_⟩
  · intro i hi
    rw [hshape]
    simp [hi, digit_char]
  · rw [List.getLast?_eq_getElem?, hlen, hshape]
    have hd : n / 62 ^ (k - 1) < 62 := by
      rw [Nat.div_lt_iff_lt_mul (Nat.pow_pos (by decide))]
      have e : 62 * 62 ^ (k - 1) = 62 ^ k := by
        rw [← pow_succ']; congr 1; omega
      rw [e]; exact hn
    have hd0 : n / 62 ^ (k - 1) ≠ 0 := by
      have := (Nat.le_div_iff_mul_le (Nat.pow_pos (by decide : 0 < 62))).mpr
        (by rw [Nat.one_mul]; exact hlow : 1 * 62 ^ (k - 1) ≤ n)
      omega
    have hlt : k - 1 < k := by omega
    simp only [List.getElem?_map, List.getElem?_range hlt, Option.map_some', digit_char,
      Nat.mod_eq_of_lt hd]
    intro e
    exact PRINTABLE_ASCII_at_ne_zero_char _ hd hd0 (Option.some.inj e)

theorem index_to_string_default_map (n : Nat) :
    index_to_string n MAX_STR_LEN = (List.range 8).map (digit_char n) := by
  rw [index_to_string_default]
  simp [List.range_succ, digit_char, Nat.div_div_eq_div_mul]

theorem map_digit_char_pad (n k m : Nat) (hn : n < 62 ^ k) :
    (List.range (k + m)).map (digit_char n) =
      (List.range k).map (digit_char n) ++ List.replicate m '0' := by
  rw [List.range_add, List.map_append, List.map_map]
  congr 1
  rw [List.eq_replicate_iff]
  refine ⟨by simp, ?_⟩
  intro c hc
  obtain ⟨j, _, rfl⟩ := List.mem_map.mp hc
  have h0 : n / 62 ^ (k + j) = 0 :=
    Nat.div_eq_of_lt (lt_of_lt_of_le hn (Nat.pow_le_pow_right (by decide) (by omega)))
  simp only [Function.comp, digit_char, h0]
  decide

/-- C18: for every `n < 62^8`, the fixed-width `index_to_string(n)` of ex04.cpp and ex05.cpp
is the variable-length `index_to_string(n)` of ex06.cpp padded on the right with `'0'` up to
length 8. -/
theorem indexer_forms_agree (n : Nat) (hn : n < 62 ^ 8) :
    index_to_string n MAX_STR_LEN =
      ex06.index_to_string n ++ List.replicate (8 - (ex06.index_to_string n).length) '0' := by
  rcases Nat.eq_zero_or_pos n with h0 | hpos
  · subst h0; decide
  · obtain ⟨k, hk, hlow, hnk⟩ := exists_digit_count n hpos
    have hk8 : k ≤ 8 := digit_count_le n k 8 hlow hn hk
    have hshape := ex06_index_to_string_shape n k hpos
      (lt_trans hn (by norm_num)) hlow hnk
    have hlen : (ex06.index_to_string n).length = k := by rw [hshape]; simp
    rw [hlen, hshape, index_to_string_default_map]
    have e : 8 = k + (8 - k) := by omega
    rw [e, map_digit_char_pad n k (8 - k) hnk]
    congr 2
    omega

theorem indexer_forms_agree_witness :
    index_to_string 4000 MAX_STR_LEN =
      ex06.index_to_string 4000 ++ List.replicate (8 - (ex06.index_to_string 4000).length) '0' :=
  indexer_forms_agree 4000 (by norm_num)

theorem variable_indexer_shape_witness :
    62 ^ ((ex06.index_to_string 3844).length - 1) ≤ 3844 ∧
    3844 < 62 ^ (ex06.index_to_string 3844).length ∧
    (ex06.index_to_string 3844).length ≤ 11 ∧
    (∀ i, i < (ex06.index_to_string 3844).length →
      (ex06.index_to_string 3844)[i]? = some (PRINTABLE_ASCII_at (3844 / 62 ^ i % 62))) ∧
    (ex06.index_to_string 3844).getLast? ≠ some '0' :=
  variable_indexer_shape.2 3844 (by decide) (by norm_num)

/-! ## Hexadecimal rendering and the polynomial hash -/

theorem digitChar_eq_hex_digit : ∀ d, d < 16 → Nat.digitChar d = hex_digit d := by decide

theorem hex_digit_mem : ∀ d, d < 16 → hex_digit d ∈ HEX_DIGITS := by decide

theorem hex_digit_injective : ∀ a, a < 16 → ∀ b, b < 16 → hex_digit a = hex_digit b → a = b := by
  decide

theorem hex_fixed_length (w : Nat) : ∀ v, (hex_fixed w v).length = w := by
  induction w with
  | zero => intro v; rfl
  | succ w ih => intro v; simp [hex_fixed, ih]

theorem hex_fixed_mem (w : Nat) : ∀ v c, c ∈ hex_fixed w v → c ∈ HEX_DIGITS := by
  induction w with
  | zero => intro v c hc; simp [hex_fixed] at hc
  | succ w ih =>
    intro v c hc
    simp only [hex_fixed, List.mem_append, List.mem_singleton] at hc
    rcases hc with h | h
    · exact ih _ _ h
    · rw [h]; exact hex_digit_mem _ (Nat.mod_lt _ (by decide))

theorem hex_fixed_zero (j : Nat) : hex_fixed j 0 = List.replicate j '0' := by
  induction j with
  | zero => rfl
  | succ j ih =>
    rw [hex_fixed, Nat.zero_div, ih, List.replicate_succ']
    rfl

theorem hex_fixed_pad (m : Nat) :
    ∀ v j, v < 16 ^ m → hex_fixed (j + m) v = List.replicate j '0' ++ hex_fixed m v := by
  induction m with
  | zero =>
    intro v j hv
    have h0 : v = 0 := by simpa using hv
    subst h0
    simp [hex_fixed, hex_fixed_zero]
  | succ m ih =>
    intro v j hv
    have hq : v / 16 < 16 ^ m := by
      rw [Nat.div_lt_iff_lt_mul (by decide)]
      rw [pow_succ] at hv
      exact hv
    show hex_fixed (j + m + 1) v = _
    rw [hex_fixed, hex_fixed, ih _ j hq, List.append_assoc]

theorem toDigitsCore_spec (fuel : Nat) :
    ∀ v acc, v < fuel →
      ∃ m, 0 < m ∧ Nat.toDigitsCore 16 fuel v acc = hex_fixed m v ++ acc ∧ v < 16 ^ m ∧
        (m = 1 ∨ 16 ^ (m - 1) ≤ v) := by
  induction fuel with
  | zero => intro v acc h; exact absurd h (Nat.not_lt_zero v)
  | succ fuel ih =>
    intro v acc hv
    unfold Nat.toDigitsCore
    by_cases hq : v / 16 = 0
    · have hlt : v < 16 := by omega
      refine ⟨1, by decide, ?_, by simpa using hlt, Or.inl rfl⟩
      simp only [hq, if_true]
      rw [digitChar_eq_hex_digit _ (Nat.mod_lt _ (by decide))]
      simp [hex_fixed]
    · have hlt : v / 16 < fuel := by omega
      obtain ⟨m, hm, he, hb, _⟩ := ih (v / 16) (Nat.digitChar (v % 16) :: acc) hlt
      refine ⟨m + 1, Nat.succ_pos m, ?_, ?_, Or.inr ?_⟩
      · simp only [hq, if_false]
        rw [he, digitChar_eq_hex_digit _ (Nat.mod_lt _ (by decide))]
        simp [hex_fixed]
      · rw [pow_succ]; exact (Nat.div_lt_iff_lt_mul (by decide)).mp hb
      · have h1 : 1 ≤ v / 16 := Nat.pos_of_ne_zero hq
        have h2 : 16 ^ (m - 1) ≤ v / 16 := by
          rename_i hlow
          rcases hlow with h | h
          · subst h; simpa using h1
          · exact h
        have h3 : 16 ^ (m - 1) * 16 ≤ v := by
          have := Nat.div_mul_le_self v 16
          calc 16 ^ (m - 1) * 16 ≤ v / 16 * 16 := Nat.mul_le_mul_right 16 h2
            _ ≤ v := this
        have e : 16 ^ (m - 1) * 16 = 16 ^ (m + 1 - 1) := by
          rw [← pow_succ]; congr 1; omega
        rw [← e]; exact h3

/-- Below `16^w` the stream output with `setw(w)` and fill `'0'` is the `w`-digit rendering. -/
theorem hex_setw_eq_hex_fixed (w v : Nat) (hw : 0 < w) (hv : v < 16 ^ w) :
    hex_setw w v = hex_fixed w v := by
  obtain ⟨m, hm, he, hb, hlow⟩ := toDigitsCore_spec (v + 1) v [] (Nat.lt_succ_self v)
  have hd : Nat.toDigits 16 v = hex_fixed m v := by
    unfold Nat.toDigits
    rw [he, List.append_nil]
  have hmw : m ≤ w := by
    rcases hlow with h | h
    · omega
    · have h' : 16 ^ (m - 1) < 16 ^ w := lt_of_le_of_lt h hv
      have := (Nat.pow_lt_pow_iff_right (by decide : 1 < 16)).mp h'
      omega
  unfold hex_setw
  simp only [hd, hex_fixed_length]
  have e : w = (w - m) + m := by omega
  conv_rhs => rw [e]
  exact (hex_fixed_pad m v (w - m) hb).symm

theorem simple_hash_step_eq (h : Int) (c : Char) :
    simple_hash_step h c = (31 * h + char_to_int c) % 2 ^ 32 := by
  unfold simple_hash_step
  norm_num
  omega

theorem char_to_int_of_lt (c : Char) (h : c.toNat < 128) : char_to_int c = (c.toNat : Int) := by
  unfold char_to_int
  have e : c.toNat % 256 = c.toNat := Nat.mod_eq_of_lt (by omega)
  rw [e, if_pos h]

theorem foldl_simple_hash_step_range (s : Str) :
    ∀ a : Int, 0 ≤ a → a < 2 ^ 32 →
      0 ≤ s.foldl simple_hash_step a ∧ s.foldl simple_hash_step a < 2 ^ 32 := by
  induction s with
  | nil => intro a h0 h1; exact ⟨h0, h1⟩
  | cons c s ih =>
    intro a _ _
    rw [List.foldl_cons]
    apply ih
    · exact Int.emod_nonneg _ (by norm_num)
    · exact Int.emod_lt_of_pos _ (by norm_num)

theorem foldl_simple_hash_step_eq (s : Str) (hs : ∀ c, c ∈ s → c.toNat < 128) :
    ∀ a : Nat, s.foldl simple_hash_step ((a : Int) % 2 ^ 32) =
      ((s.foldl (fun x c => 31 * x + c.toNat) a : Nat) : Int) % 2 ^ 32 := by
  induction s with
  | nil => intro a; rfl
  | cons c s ih =>
    intro a
    rw [List.foldl_cons, List.foldl_cons, ← ih (fun c hc => hs c (List.mem_cons_of_mem _ hc))]
    congr 1
    rw [simple_hash_step_eq, char_to_int_of_lt c (hs c (List.mem_cons_self _ _))]
    push_cast
    omega

theorem poly_hash_cons (c : Char) (s : Str) :
    poly_hash (c :: s) = c.toNat * 31 ^ s.length + poly_hash s := by
  unfold poly_hash
  rw [List.length_cons, List.range_succ_eq_map, List.map_cons, List.sum_cons, List.map_map]
  congr 1
  congr 1
  apply List.map_congr_left
  intro i _
  simp only [Function.comp, Nat.succ_eq_add_one, List.getD_cons_succ]
  congr 2
  omega

theorem foldl_horner_eq (s : Str) :
    ∀ a : Nat, s.foldl (fun x c => 31 * x + c.toNat) a = a * 31 ^ s.length + poly_hash s := by
  induction s with
  | nil => intro a; simp [poly_hash]
  | cons c s ih =>
    intro a
    rw [List.foldl_cons, ih, poly_hash_cons, List.length_cons]
    ring

theorem simple_hash_eq_poly (s : Str) (hs : ∀ c, c ∈ s → c.toNat < 128) :
    simple_hash s = hex_fixed 8 (poly_hash s % 2 ^ 32) := by
  unfold simple_hash
  have h := foldl_simple_hash_step_eq s hs 0
  rw [foldl_horner_eq] at h
  simp only [Nat.cast_zero, Int.zero_emod, Nat.zero_mul, Nat.zero_add] at h
  rw [h]
  have e : ((poly_hash s : Int) % 2 ^ 32).toNat = poly_hash s % 2 ^ 32 := by
    have : ((poly_hash s : Int) % 2 ^ 32) = ((poly_hash s % 2 ^ 32 : Nat) : Int) := by
      push_cast; rfl
    rw [this, Int.toNat_ofNat]
  rw [e]
  exact hex_setw_eq_hex_fixed 8 _ (by decide) (lt_of_lt_of_le (Nat.mod_lt _ (by norm_num)) (by norm_num))

theorem simple_hash_eq_hex_fixed (s : Str) :
    ∃ v, v < 2 ^ 32 ∧ simple_hash s = hex_fixed 8 v := by
  obtain ⟨h0, h1⟩ := foldl_simple_hash_step_range s 0 (le_refl 0) (by norm_num)
  refine ⟨(s.foldl simple_hash_step 0).toNat, ?_, ?_⟩
  · omega
  · unfold simple_hash
    apply hex_setw_eq_hex_fixed 8 _ (by decide)
    have : (16 : Nat) ^ 8 = 2 ^ 32 := by norm_num
    omega

theorem hex_setw_two : ∀ b, b < 256 → hex_setw 2 b = [hex_digit (b / 16), hex_digit (b % 16)] := by
  intro b hb
  rw [hex_setw_eq_hex_fixed 2 b (by decide) (by norm_num; exact hb)]
  have h : b / 16 % 16 = b / 16 := Nat.mod_eq_of_lt (by omega)
  simp [hex_fixed, h]

/-! ## The first collision of the scan -/

theorem hex_fixed_injective (w : Nat) :
    ∀ a b, a < 16 ^ w → b < 16 ^ w → hex_fixed w a = hex_fixed w b → a = b := by
  induction w with
  | zero =>
    intro a b ha hb _
    have h1 : a = 0 := by simpa using ha
    have h2 : b = 0 := by simpa using hb
    rw [h1, h2]
  | succ w ih =>
    intro a b ha hb e
    rw [hex_fixed, hex_fixed] at e
    have hl : (hex_fixed w (a / 16)).length = (hex_fixed w (b / 16)).length := by
      rw [hex_fixed_length, hex_fixed_length]
    obtain ⟨e1, e2⟩ := List.append_inj e hl
    have hqa : a / 16 < 16 ^ w := by
      rw [Nat.div_lt_iff_lt_mul (by decide)]; rw [pow_succ] at ha; exact ha
    have hqb : b / 16 < 16 ^ w := by
      rw [Nat.div_lt_iff_lt_mul (by decide)]; rw [pow_succ] at hb; exact hb
    have h1 := ih _ _ hqa hqb e1
    have h2 := hex_digit_injective _ (Nat.mod_lt _ (by decide)) _ (Nat.mod_lt _ (by decide))
      (List.singleton_inj.mp e2)
    omega

theorem PRINTABLE_ASCII_at_toNat_lt : ∀ d, d < 62 → (PRINTABLE_ASCII_at d).toNat < 128 := by
  decide

theorem PRINTABLE_ASCII_at_toNat_injective :
    ∀ a, a < 62 → ∀ b, b < 62 →
      (PRINTABLE_ASCII_at a).toNat = (PRINTABLE_ASCII_at b).toNat → a = b := by
  decide

theorem PRINTABLE_ASCII_at_toNat_range :
    ∀ d, d < 24 → 48 ≤ (PRINTABLE_ASCII_at d).toNat ∧ (PRINTABLE_ASCII_at d).toNat ≤ 78 := by
  decide

theorem candidate_toNat_lt (i : Nat) : ∀ c, c ∈ candidate i → c.toNat < 128 := by
  intro c hc
  unfold candidate at hc
  rw [index_to_string_default] at hc
  simp only [List.mem_cons, List.mem_singleton, List.not_mem_nil, or_false] at hc
  rcases hc with h | h | h | h | h | h | h | h <;>
    (rw [h]; exact PRINTABLE_ASCII_at_toNat_lt _ (Nat.mod_lt _ (by decide)))

/-- The polynomial of a candidate with two significant characters. -/
theorem poly_hash_candidate (i : Nat) (hi : i < 62 ^ 2) :
    poly_hash (candidate i) =
      31 ^ 6 * (31 * (PRINTABLE_ASCII_at (i % 62)).toNat + (PRINTABLE_ASCII_at (i / 62)).toNat)
        + 48 * (31 ^ 5 + 31 ^ 4 + 31 ^ 3 + 31 ^ 2 + 31 + 1) := by
  unfold candidate
  rw [index_to_string_default]
  have h1 : i / 62 % 62 = i / 62 := Nat.mod_eq_of_lt (by norm_num at hi; omega)
  have h2 : i / 62 / 62 = 0 := by norm_num at hi; omega
  rw [h1, h2]
  simp only [Nat.zero_div, Nat.zero_mod, poly_hash_cons, List.length_cons, List.length_nil]
  have h0 : (PRINTABLE_ASCII_at 0).toNat = 48 := by decide
  have hnil : poly_hash [] = 0 := rfl
  rw [h0, hnil]
  ring

theorem digest_eq_hex_fixed (i : Nat) : digest i = hex_fixed 8 (poly_hash (candidate i) % 2 ^ 32) :=
  simple_hash_eq_poly (candidate i) (candidate_toNat_lt i)

theorem poly_cancel (X Y K : Nat) (hX : X < 2 ^ 32) (hY : Y < 2 ^ 32)
    (h : (31 ^ 6 * X + K) % 2 ^ 32 = (31 ^ 6 * Y + K) % 2 ^ 32) : X = Y := by
  have h1 : Nat.ModEq (2 ^ 32) (31 ^ 6 * X) (31 ^ 6 * Y) := Nat.ModEq.add_right_cancel' K h
  have hc : Nat.gcd (2 ^ 32) (31 ^ 6) = 1 := by norm_num
  have h2 : Nat.ModEq (2 ^ 32) X Y := Nat.ModEq.cancel_left_of_coprime hc h1
  exact Nat.ModEq.eq_of_lt_of_lt h2 hX hY

theorem mod_eq_of_eq (m P Q A B : Nat) (hP : P = A) (hQ : Q = B) (h : P % m = Q % m) :
    A % m = B % m := by
  rw [← hP, ← hQ]; exact h

theorem two_char_bound (x0 x1 : Nat) (h0 : x0 < 128) (h1 : 48 ≤ x1 ∧ x1 ≤ 78) :
    31 * x0 + x1 < 2 ^ 32 := by
  omega

/-- Two characters are determined by `31 * x0 + x1` when the second varies by less than 31. -/
theorem two_char_arith (x0 x1 y0 y1 : Nat) (h1 : 48 ≤ x1 ∧ x1 ≤ 78) (h2 : 48 ≤ y1 ∧ y1 ≤ 78)
    (h : 31 * x0 + x1 = 31 * y0 + y1) : x0 = y0 ∧ x1 = y1 := by
  omega

theorem eq_of_mod_div_eq (i j : Nat) (h0 : i % 62 = j % 62) (h1 : i / 62 = j / 62) : i = j := by
  omega

theorem digest_injective_below_1488 (i j : Nat) (hi : i < 1488) (hj : j < 1488)
    (e : digest i = digest j) : i = j := by
  have hi2 : i < 62 ^ 2 := by norm_num; omega
  have hj2 : j < 62 ^ 2 := by norm_num; omega
  have hi3 : i / 62 < 24 := by omega
  have hj3 : j / 62 < 24 := by omega
  have hi4 : i / 62 < 62 := by omega
  have hj4 : j / 62 < 62 := by omega
  have hi5 : i % 62 < 62 := Nat.mod_lt _ (by decide)
  have hj5 : j % 62 < 62 := Nat.mod_lt _ (by decide)
  rw [digest_eq_hex_fixed, digest_eq_hex_fixed] at e
  have hlt : ∀ x : Nat, x % 2 ^ 32 < 16 ^ 8 := fun x =>
    lt_of_lt_of_le (Nat.mod_lt _ (by norm_num)) (by norm_num)
  have hv := hex_fixed_injective 8 _ _ (hlt _) (hlt _) e
  have hv' := mod_eq_of_eq _ _ _ _ _ (poly_hash_candidate i hi2) (poly_hash_candidate j hj2) hv
  have a0 := PRINTABLE_ASCII_at_toNat_lt (i % 62) hi5
  have b0 := PRINTABLE_ASCII_at_toNat_lt (j % 62) hj5
  have a1 := PRINTABLE_ASCII_at_toNat_range (i / 62) hi3
  have b1 := PRINTABLE_ASCII_at_toNat_range (j / 62) hj3
  have hxy := poly_cancel _ _ _ (two_char_bound _ _ a0 a1) (two_char_bound _ _ b0 b1) hv'
  obtain ⟨e0, e1⟩ := two_char_arith _ _ _ _ a1 b1 hxy
  exact eq_of_mod_div_eq i j
    (PRINTABLE_ASCII_at_toNat_injective _ hi5 _ hj5 e0)
    (PRINTABLE_ASCII_at_toNat_injective _ hi4 _ hj4 e1)

theorem noCollisionBelow_1488 : NoCollisionBelow 1488 := by
  intro i hi j hj e
  have := digest_injective_below_1488 j i (by omega) hi e
  omega

theorem find_collision_hash_le_1488 (N : Nat) (hN : N ≤ 1488) :
    find_collision_hash N = ([], []) := by
  rcases find_collision_hash_cases N with ⟨h, _⟩ | ⟨i, j, hi, hj, _, hd, _⟩
  · exact h
  · exact absurd hd (noCollisionBelow_1488 i (by omega) j hj)

theorem find_collision_hash_ge_1489 (N : Nat) (hN : 1489 ≤ N) :
    find_collision_hash N = (candidate 1488, candidate 1) := by
  have hinv := find_collision_hash_run_inv N
  unfold find_collision_hash
  rcases hinv with ⟨_, _, hno, _, _⟩ | ⟨_, i, j, hi, hj, hr, hd, hmin⟩
  · exact absurd digest_1_eq_digest_1488 (hno 1488 (by omega) 1 (by decide))
  · have h1 : i ≤ 1488 := by
      by_contra hgt
      exact hmin 1488 (by omega) 1 (by decide) digest_1_eq_digest_1488
    have h2 : 1488 ≤ i := by
      by_contra hlt
      exact noCollisionBelow_1488 i (by omega) j hj hd
    have hi' : i = 1488 := by omega
    subst hi'
    have hj' : j = 1 :=
      digest_injective_below_1488 j 1 hj (by decide) (hd.trans digest_1_eq_digest_1488.symm)
    subst hj'
    exact hr

theorem length_flatten_hex_pairs (l : List Nat) :
    ((l.map (fun b => [hex_digit (b / 16), hex_digit (b % 16)])).flatten).length
      = 2 * l.length := by
  induction l with
  | nil => rfl
  | cons b l ih =>
    simp only [List.map_cons, List.flatten_cons, List.length_append, List.length_cons,
      List.length_nil, ih]
    omega

theorem sha256_eq_hex_pairs (SHA256 : Str → List Nat) (data : Str)
    (hb : ∀ b, b ∈ SHA256 data → b < 256) :
    ex06.sha256 SHA256 data =
      ((SHA256 data).map (fun b => [hex_digit (b / 16), hex_digit (b % 16)])).flatten := by
  unfold ex06.sha256
  congr 1
  apply List.map_congr_left
  intro b hmem
  exact hex_setw_two b (hb b hmem)

/-- C14: `simple_hash` returns exactly 8 characters, all in `0-9a-f`, the zero-padded
8-digit rendering of a value below `2^32`; and the `sha256` wrapper renders a digest of 32
bytes as exactly 64 characters in `0-9a-f`, two per byte (high digit first) in byte order. -/
theorem digest_rendering_fixed_width :
    (∀ str : Str, (simple_hash str).length = 8 ∧
      (∀ c, c ∈ simple_hash str → c ∈ HEX_DIGITS) ∧
      ∃ v, v < 2 ^ 32 ∧ simple_hash str = hex_fixed 8 v) ∧
    (∀ (SHA256 : Str → List Nat) (data : Str),
      (SHA256 data).length = 32 → (∀ b, b ∈ SHA256 data → b < 256) →
      (ex06.sha256 SHA256 data).length = 64 ∧
      (∀ c, c ∈ ex06.sha256 SHA256 data → c ∈ HEX_DIGITS) ∧
      ex06.sha256 SHA256 data =
        ((SHA256 data).map (fun b => [hex_digit (b / 16), hex_digit (b % 16)])).flatten) := by
  refine ⟨?_, ?_⟩
  · intro str
    obtain ⟨v, hv, e⟩ := simple_hash_eq_hex_fixed str
    refine ⟨?_, ?_, v, hv, e⟩
    · rw [e, hex_fixed_length]
    · intro c hc
      rw [e] at hc
      exact hex_fixed_mem 8 v c hc
  · intro SHA256 data hlen hb
    have e := sha256_eq_hex_pairs SHA256 data hb
    refine ⟨?_, ?_, e⟩
    · rw [e, length_flatten_hex_pairs, hlen]
    · intro c hc
      rw [e] at hc
      obtain ⟨l, hl, hcl⟩ := List.mem_flatten.mp hc
      obtain ⟨b, hmem, rfl⟩ := List.mem_map.mp hl
      have hlt := hb b hmem
      simp only [List.mem_cons, List.mem_singleton, List.not_mem_nil, or_false] at hcl
      rcases hcl with h | h
      · rw [h]; exact hex_digit_mem _ (by omega)
      · rw [h]; exact hex_digit_mem _ (Nat.mod_lt _ (by decide))

theorem digest_rendering_fixed_width_witness :
    (ex06.sha256 (fun _ => List.replicate 32 171) "bitcoin0".toList).length = 64 ∧
    (∀ c, c ∈ ex06.sha256 (fun _ => List.replicate 32 171) "bitcoin0".toList → c ∈ HEX_DIGITS) ∧
    ex06.sha256 (fun _ => List.replicate 32 171) "bitcoin0".toList =
      (((fun _ => List.replicate 32 171) "bitcoin0".toList).map
        (fun b => [hex_digit (b / 16), hex_digit (b % 16)])).flatten :=
  digest_rendering_fixed_width.2 (fun _ => List.replicate 32 171) "bitcoin0".toList
    (by decide) (by decide)

/-- C19: the first collision of the sequential scan is at index 1488: distinct indices below
1488 have distinct digests, index 1488 (`"0O000000"`) has the digest of index 1
(`"10000000"`), and `find_collision_hash(N)` returns `("", "")` for `N ≤ 1488` and
`("0O000000", "10000000")` for `N ≥ 1489`. -/
theorem first_collision_at_1488 :
    (∀ i j, i < 1488 → j < 1488 → i ≠ j →
      simple_hash (index_to_string i MAX_STR_LEN) ≠ simple_hash (index_to_string j MAX_STR_LEN)) ∧
    index_to_string 1488 MAX_STR_LEN = "0O000000".toList ∧
    index_to_string 1 MAX_STR_LEN = "10000000".toList ∧
    simple_hash (index_to_string 1488 MAX_STR_LEN) = simple_hash (index_to_string 1 MAX_STR_LEN) ∧
    (∀ N, N ≤ 1488 → find_collision_hash N = ([], [])) ∧
    (∀ N, 1489 ≤ N → find_collision_hash N = ("0O000000".toList, "10000000".toList)) := by
  refine ⟨?_, by decide, by decide, digest_1_eq_digest_1488.symm, find_collision_hash_le_1488, ?_⟩
  · intro i j hi hj hne e
    exact hne (digest_injective_below_1488 i j hi hj e)
  · intro N hN
    rw [find_collision_hash_ge_1489 N hN]
    decide

theorem first_collision_at_1488_witness :
    simple_hash (index_to_string 7 MAX_STR_LEN) ≠ simple_hash (index_to_string 1487 MAX_STR_LEN) ∧
    find_collision_hash 1488 = ([], []) ∧
    find_collision_hash 1000000 = ("0O000000".toList, "10000000".toList) :=
  ⟨first_collision_at_1488.1 7 1487 (by decide) (by decide) (by decide),
   first_collision_at_1488.2.2.2.2.1 1488 (by decide),
   first_collision_at_1488.2.2.2.2.2 1000000 (by decide)⟩

/-- C20: `simple_hash` is the base-31 polynomial hash modulo `2^32`: the loop step
`(h << 5) - h + c` is `31 * h + c` modulo `2^32`; for every string `s` of bytes in `0..127`,
`simple_hash(s)` is the 8-digit lowercase hexadecimal rendering of
`(sum over i < m of s[i] * 31^(m-1-i)) mod 2^32`; and the empty string hashes to
`"00000000"`. -/
theorem simple_hash_is_polynomial :
    (∀ (h : Int) (c : Char), simple_hash_step h c = (31 * h + char_to_int c) % 2 ^ 32) ∧
    (∀ s : Str, (∀ c, c ∈ s → c.toNat < 128) →
      simple_hash s = hex_fixed 8 (poly_hash s % 2 ^ 32)) ∧
    simple_hash [] = "00000000".toList :=
  ⟨simple_hash_step_eq, simple_hash_eq_poly, by decide⟩

theorem simple_hash_is_polynomial_witness :
    simple_hash "eliam".toList = hex_fixed 8 (poly_hash "eliam".toList % 2 ^ 32) :=
  simple_hash_is_polynomial.2.1 "eliam".toList (by decide)

theorem bounded_indexer_digit_order_witness :
    (index_to_string 123456 MAX_STR_LEN)[2]? = some (PRINTABLE_ASCII_at (123456 / 62 ^ 2 % 62)) :=
  bounded_indexer_digit_order.1 123456 2 (by norm_num) (by decide)

theorem bounded_indexer_wraps_witness :
    index_to_string (62 ^ 8 + 5) MAX_STR_LEN = index_to_string ((62 ^ 8 + 5) % 62 ^ 8) MAX_STR_LEN ∧
    ∃ n1 n2, n1 < 62 ^ 8 + 1 ∧ n2 < 62 ^ 8 + 1 ∧ n1 ≠ n2 ∧
      index_to_string n1 MAX_STR_LEN = index_to_string n2 MAX_STR_LEN :=
  ⟨bounded_indexer_wraps.1 (62 ^ 8 + 5) (by norm_num),
   bounded_indexer_wraps.2.2.2 (62 ^ 8 + 1) (by norm_num)⟩
